import Mathlib

/-!
# NeoSearch: key-value store, merge-set and command rendering

A shallow embedding of `store/store_leveldb.go` (the `LVDB` store with its
batch mode and the `MergeSet` read-modify-write primitive), of
`lib/neosearch/engine/command.go` (`Command.Reverse`) and of `index.go` (the
`NeoSearch` interface), with the indexing planner modelled from the spec.

Modelling conventions:

* a byte is a `Fin 256`; a Go `[]byte` and a Go `string` are lists of bytes,
  a nil slice is `none`;
* a `uint64` is a `Nat` below `2 ^ 64`;
* a Go call either returns normally, returns a non-nil `error`, or panics
  (nil dereference, index or slice bound out of range, explicit `panic`):
  this is the three-way `Outcome`;
* the LevelDB binding (`levigo`) is an external library.  It is modelled as a
  finite map held in memory whose operations do not report I/O errors; a
  write batch is the list of buffered operations, applied in order by `Write`.
-/

set_option maxRecDepth 100000
set_option linter.dupNamespace false

namespace NeoSearch

/-- One byte. -/
abbrev Byte := Fin 256

/-- A Go byte slice that is not nil. -/
abbrev Bytes := List Byte

/-- A Go string: an immutable sequence of bytes. -/
abbrev GoString := List Byte

/-- Result of a Go call: normal return, non-nil error, or a runtime panic. -/
inductive Outcome (α : Type) where
  | ok : α → Outcome α
  | error : GoString → Outcome α
  | fault : Outcome α
  deriving DecidableEq, Repr

namespace Outcome

/-- Sequencing of calls: the second call only runs when the first returned normally. -/
def bind {α β : Type} (o : Outcome α) (f : α → Outcome β) : Outcome β :=
  match o with
  | .ok a => f a
  | .error e => .error e
  | .fault => .fault

end Outcome

/-! ## Integer codec (package `utils`) and sorting -/

/-- Modelled from the spec: `utils.BytesToUint64` is not among the sources; uint values are
fixed-width 8-byte big-endian encodings, so the bytes are read most significant first
(reduced to 64 bits). -/
def BytesToUint64 (b : Bytes) : Nat :=
  (b.foldl (fun acc x => acc * 256 + x.val) 0) % 2 ^ 64

/-- The write `binary.Write(buf, binary.BigEndian, v)` of a `uint64`: eight bytes, most
significant first. -/
def Uint64ToBytes (v : Nat) : Bytes :=
  (List.range 8).map (fun j => Fin.ofNat (v / 256 ^ (7 - j)))

/-- Modelled from the spec: `utils.Uint64Slice` is not among the sources;
`sort.Sort(utils.Uint64Slice(values))` sorts the values ascending. -/
def sortUint64 (values : List Nat) : List Nat :=
  values.insertionSort (fun a b => decide (a ≤ b))

/-- The re-encoding loop of `MergeSet`: every value written big-endian into the buffer. -/
def encodeValues (values : List Nat) : Bytes :=
  (values.map Uint64ToBytes).flatten

/-! ## The levigo database and write batch -/

/-- Contents of a `levigo.DB`: an association list, the first binding of a key is the live one. -/
abbrev DB := List (Bytes × Bytes)

namespace DB

/-- The `levigo` read `db.Get(ro, key)`: `none` is the nil slice returned for a missing key. -/
def get : DB → Bytes → Option Bytes
  | [], _ => none
  | (k, v) :: rest, key => if k = key then some v else get rest key

/-- The `levigo` delete `db.Delete(wo, key)`. -/
def delete (db : DB) (key : Bytes) : DB :=
  db.filter (fun p => decide (p.1 ≠ key))

/-- The `levigo` write `db.Put(wo, key, value)`. -/
def put (db : DB) (key value : Bytes) : DB :=
  (key, value) :: delete db key

end DB

/-- One operation buffered in a `levigo.WriteBatch`. -/
inductive BatchOp where
  | put : Bytes → Bytes → BatchOp
  | delete : Bytes → BatchOp
  deriving DecidableEq, Repr

/-- A `levigo.WriteBatch`: the buffered operations, oldest first. -/
abbrev WriteBatch := List BatchOp

namespace DB

/-- Effect of one buffered operation on the database. -/
def applyOp (db : DB) : BatchOp → DB
  | .put k v => put db k v
  | .delete k => delete db k

/-- The `levigo` batch commit `db.Write(wo, batch)`: the buffered operations in order. -/
def write (db : DB) (wb : WriteBatch) : DB :=
  wb.foldl applyOp db

end DB

/-! ## The LVDB store -/

/-- The `LVDB` struct: the batch flag, the database handle (nil until opened) and the
write batch (nil until the first `StartBatch`). -/
structure LVDB where
  isBatch : Bool
  _db : Option DB
  _writeBatch : Option WriteBatch
  deriving DecidableEq, Repr

namespace LVDB

/-- `NewLVDB`: a store with no database open, not batching, no write batch. -/
def NewLVDB : LVDB :=
  { isBatch := false, _db := none, _writeBatch := none }

/-- `LVDB.IsOpen`. -/
def IsOpen (s : LVDB) : Bool :=
  s._db.isSome

/-- `LVDB.IsBatch`. -/
def IsBatch (s : LVDB) : Bool :=
  s.isBatch

/-- `LVDB.Set`: buffer the put in batch mode, otherwise write it to the database. -/
def Set (s : LVDB) (key value : Bytes) : Outcome LVDB :=
  if s.isBatch then
    match s._writeBatch with
    | none => .fault
    | some wb => .ok { s with _writeBatch := some (wb ++ [BatchOp.put key value]) }
  else
    match s._db with
    | none => .fault
    | some db => .ok { s with _db := some (db.put key value) }

/-- `LVDB.Get`: always reads the database, never the write batch. -/
def Get (s : LVDB) (key : Bytes) : Outcome (Option Bytes) :=
  match s._db with
  | none => .fault
  | some db => .ok (db.get key)

/-- `LVDB.Delete`: buffer the delete in batch mode, otherwise delete from the database. -/
def Delete (s : LVDB) (key : Bytes) : Outcome LVDB :=
  if s.isBatch then
    match s._writeBatch with
    | none => .fault
    | some wb => .ok { s with _writeBatch := some (wb ++ [BatchOp.delete key]) }
  else
    match s._db with
    | none => .fault
    | some db => .ok { s with _db := some (db.delete key) }

/-- `LVDB.StartBatch`: allocate the write batch or clear the existing one, then set the flag. -/
def StartBatch (s : LVDB) : LVDB :=
  match s._writeBatch with
  | none => { s with _writeBatch := some [], isBatch := true }
  | some _ => { s with _writeBatch := some [], isBatch := true }

/-- `LVDB.FlushBatch`: when a write batch exists, commit it, clear it and leave batch mode. -/
def FlushBatch (s : LVDB) : Outcome LVDB :=
  match s._writeBatch with
  | none => .ok s
  | some wb =>
    match s._db with
    | none => .fault
    | some db => .ok { s with _db := some (db.write wb), _writeBatch := some [], isBatch := false }

/-- `LVDB.Close`: drop the database handle; drop the write batch and leave batch mode. -/
def Close (s : LVDB) : LVDB :=
  let s1 : LVDB := match s._db with
    | none => s
    | some _ => { s with _db := none }
  match s1._writeBatch with
  | none => s1
  | some _ => { s1 with _writeBatch := none, isBatch := false }

/-- Outcome of the decoding loop of `MergeSet`. -/
inductive LoopOutcome where
  | done : List Nat → LoopOutcome
  | found : LoopOutcome
  | fault : LoopOutcome
  deriving DecidableEq, Repr

/-- Byte offsets visited by `for i = 0; i < lenBytes; i += 8`. -/
def loopOffsets (lenBytes : Nat) : List Nat :=
  (List.range ((lenBytes + 7) / 8)).map (fun j => 8 * j)

/-- Body of the decoding loop of `MergeSet`, run over the remaining offsets.  At offset `i`
the slice `data[i : i+8]` panics when it reaches past the data (the slice returned by
`levigo` has capacity equal to its length), the loop returns early when the decoded value is
the one being merged, and `values[i] = v` panics when `i` is not an index of `values`. -/
def mergeLoop (data : Bytes) (value : Nat) : List Nat → List Nat → LoopOutcome
  | values, [] => .done values
  | values, i :: rest =>
    if data.length < i + 8 then .fault
    else
      let v := BytesToUint64 ((data.drop i).take 8)
      if v = value then .found
      else if i < values.length then mergeLoop data value (values.set i v) rest
      else .fault

/-- `LVDB.MergeSet`. -/
def MergeSet (s : LVDB) (key : Bytes) (value : Nat) : Outcome LVDB :=
  match Get s key with
  | .fault => .fault
  | .error e => .error e
  | .ok data =>
    let lenBytes := (data.getD []).length
    let pos := lenBytes / 8
    let values := List.replicate (pos + 1) 0
    let decoded :=
      if data.isSome && decide (0 < lenBytes) then
        mergeLoop (data.getD []) value values (loopOffsets lenBytes)
      else .done values
    match decoded with
    | .fault => .fault
    | .found => .ok s
    | .done values =>
      if pos < values.length then
        Set s key (encodeValues (sortUint64 (values.set pos value)))
      else .fault

end LVDB

/-! ## Sequences of store calls -/

/-- A write call on the store. -/
inductive WriteCall where
  | set : Bytes → Bytes → WriteCall
  | delete : Bytes → WriteCall
  deriving DecidableEq, Repr

/-- The batch operation buffered by a write call. -/
def WriteCall.toOp : WriteCall → BatchOp
  | .set k v => .put k v
  | .delete k => .delete k

namespace LVDB

/-- Perform one write call. -/
def call (s : LVDB) : WriteCall → Outcome LVDB
  | .set k v => Set s k v
  | .delete k => Delete s k

/-- Perform write calls one after the other, stopping at the first that does not return
normally. -/
def calls (s : LVDB) : List WriteCall → Outcome LVDB
  | [] => .ok s
  | c :: rest => (call s c).bind (fun s1 => calls s1 rest)

/-- Perform `Set` calls one after the other on the given key/value pairs. -/
def sets (s : LVDB) (kvs : List (Bytes × Bytes)) : Outcome LVDB :=
  calls s (kvs.map (fun p => WriteCall.set p.1 p.2))

end LVDB

/-! ## Commands (package `engine`) -/

/-- An ASCII literal as a Go string. -/
def lit (s : String) : GoString :=
  s.toList.map (fun c => Fin.ofNat c.toNat)

/-- The type-tag constants `TypeString`, `TypeUint`, `TypeInt`, `TypeFloat`, `TypeBool` of
package `engine`; their declaration is not among the sources, so they are parameters. -/
structure TypeTags where
  TypeString : Byte
  TypeUint : Byte
  TypeInt : Byte
  TypeFloat : Byte
  TypeBool : Byte
  deriving DecidableEq, Repr

/-- The five tags are different constants. -/
def TypeTags.Distinct (t : TypeTags) : Prop :=
  [t.TypeString, t.TypeUint, t.TypeInt, t.TypeFloat, t.TypeBool].Nodup

instance (t : TypeTags) : Decidable t.Distinct := by
  unfold TypeTags.Distinct; infer_instance

/-- What `Command.Reverse` takes from outside the sources: the tag constants, the rendering
of a float operand (`strconv.FormatFloat(utils.BytesToFloat64(b), 'f', -1, 64)`) and the
upper-casing of a string that is not pure ASCII (`strings.Map(unicode.ToUpper, s)`). -/
structure Lib where
  tags : TypeTags
  formatFloat : Bytes → GoString
  unicodeUpper : GoString → GoString

/-- The `Command` struct. -/
structure Command where
  Index : GoString
  Database : GoString
  Command : GoString
  Key : Option Bytes
  KeyType : Byte
  Value : Option Bytes
  ValueType : Byte
  Batch : Bool
  deriving DecidableEq, Repr

/-- Upper-case one ASCII byte. -/
def upperByte (c : Byte) : Byte :=
  if 97 ≤ c.val ∧ c.val ≤ 122 then Fin.ofNat (c.val - 32) else c

/-- Lower-case one ASCII byte. -/
def lowerByte (c : Byte) : Byte :=
  if 65 ≤ c.val ∧ c.val ≤ 90 then Fin.ofNat (c.val + 32) else c

/-- The library call `strings.ToUpper`: byte-wise on a pure ASCII string, the Unicode
mapping otherwise. -/
def ToUpper (L : Lib) (s : GoString) : GoString :=
  if s.all (fun c => decide (c.val < 128)) then s.map upperByte else L.unicodeUpper s

/-- The conversion `int(x)` of a `uint64` on a 64-bit platform: two's complement. -/
def toInt64 (u : Nat) : Int :=
  if u % 2 ^ 64 < 2 ^ 63 then ((u % 2 ^ 64 : Nat) : Int) else ((u % 2 ^ 64 : Nat) : Int) - 2 ^ 64

/-- Modelled from the spec: `utils.BytesToInt64` is not among the sources; int values are
8-byte big-endian two's complement. -/
def BytesToInt64 (b : Bytes) : Int :=
  toInt64 (BytesToUint64 b)

/-- Decimal digits of a natural number. -/
def decimal (n : Nat) : GoString :=
  (Nat.toDigits 10 n).map (fun c => Fin.ofNat c.toNat)

/-- The library call `strconv.Itoa`. -/
def Itoa (z : Int) : GoString :=
  if z < 0 then lit "-" ++ decimal z.natAbs else decimal z.toNat

namespace Command

/-- The literal of one non-nil operand: the `if`/`else if` chain on the type tag that
`Reverse` runs for the key and again for the value; an unknown tag panics. -/
def operandStr (L : Lib) (ty : Byte) (b : Bytes) : Outcome GoString :=
  if ty = L.tags.TypeString then
    .ok (lit "\x27" ++ b ++ lit "\x27")
  else if ty = L.tags.TypeUint then
    .ok (lit "uint(" ++ Itoa (toInt64 (BytesToUint64 b)) ++ lit ")")
  else if ty = L.tags.TypeInt then
    .ok (lit "int(" ++ Itoa (BytesToInt64 b) ++ lit ")")
  else if ty = L.tags.TypeFloat then
    .ok (lit "float(" ++ L.formatFloat b ++ lit ")")
  else if ty = L.tags.TypeBool then
    .ok (lit "bool(" ++ b ++ lit ")")
  else .fault

/-- The literal of an operand that may be nil: a nil operand leaves the string empty. -/
def operand (L : Lib) (ty : Byte) : Option Bytes → Outcome GoString
  | none => .ok []
  | some b => operandStr L ty b

/-- `Command.Reverse`. -/
def Reverse (L : Lib) (c : NeoSearch.Command) : Outcome GoString :=
  (operand L c.KeyType c.Key).bind fun keyStr =>
  (operand L c.ValueType c.Value).bind fun valStr =>
  let up := ToUpper L c.Command
  if up = lit "SET" ∨ up = lit "MERGESET" then
    .ok (lit "USING " ++ c.Index ++ lit "." ++ c.Database ++ lit " " ++ up ++ lit " "
      ++ keyStr ++ lit " " ++ valStr ++ lit ";")
  else if up = lit "BATCH" ∨ up = lit "flushbatch" then
    .ok (lit "USING " ++ c.Index ++ lit "." ++ c.Database ++ lit " " ++ up ++ lit ";")
  else if up = lit "GET" ∨ up = lit "DELETE" then
    .ok (lit "USING " ++ c.Index ++ lit "." ++ c.Database ++ lit " " ++ up ++ lit " "
      ++ keyStr ++ lit ";")
  else .fault

end Command

/-- ASCII lower-casing of a string, used to compare operation names without regard to case. -/
def lowerStr (s : GoString) : GoString := s.map lowerByte

/-- ASCII upper-casing of a string. -/
def upperStr (s : GoString) : GoString := s.map upperByte

/-- An operand as the data model allows it: nil, or tagged string or bool, or tagged uint,
int or float and eight bytes long. -/
def ValidOperand (L : Lib) (ty : Byte) : Option Bytes → Prop
  | none => True
  | some b =>
    ty = L.tags.TypeString ∨ ty = L.tags.TypeBool ∨
      ((ty = L.tags.TypeUint ∨ ty = L.tags.TypeInt ∨ ty = L.tags.TypeFloat) ∧ b.length = 8)

/-- The documented literal of an operand: nothing for a nil operand, the bytes between single
quotes for a string, `bool(<bytes>)` for a bool, `uint(N)` with `N` the decimal digits of
the unsigned value, `int(N)` with `N` the signed decimal value, and `float(F)` with `F` the
formatted float. -/
def DocumentedLiteral (L : Lib) (ty : Byte) (o : Option Bytes) (str : GoString) : Prop :=
  match o with
  | none => str = []
  | some b =>
    (ty = L.tags.TypeString ∧ str = lit "\x27" ++ b ++ lit "\x27") ∨
    (ty = L.tags.TypeBool ∧ str = lit "bool(" ++ b ++ lit ")") ∨
    (ty = L.tags.TypeUint ∧ str = lit "uint(" ++ decimal (BytesToUint64 b) ++ lit ")") ∨
    (ty = L.tags.TypeInt ∧ str = lit "int(" ++ Itoa (BytesToInt64 b) ++ lit ")") ∨
    (ty = L.tags.TypeFloat ∧ str = lit "float(" ++ L.formatFloat b ++ lit ")")

/-- The documented reverse form of a command, given the literals of its key and value:
`USING <Index>.<Database> <OP>` with the operation in upper case, then ` <key> <value>` for
set and mergeset, ` <key>` for get and delete, nothing for the other operations, then `;`. -/
def documentedForm (c : Command) (k v : GoString) : GoString :=
  lit "USING " ++ c.Index ++ lit "." ++ c.Database ++ lit " " ++ upperStr (lowerStr c.Command)
    ++ (if lowerStr c.Command = lit "set" ∨ lowerStr c.Command = lit "mergeset" then
          lit " " ++ k ++ lit " " ++ v
        else if lowerStr c.Command = lit "get" ∨ lowerStr c.Command = lit "delete" then
          lit " " ++ k
        else [])
    ++ lit ";"

/-- An operand that is not a uint of `2 ^ 63` or more: when it is tagged uint, its value is
below `2 ^ 63`. -/
def UintBelowSign (L : Lib) (ty : Byte) (o : Option Bytes) : Prop :=
  ∀ b, o = some b → ty = L.tags.TypeUint → BytesToUint64 b < 2 ^ 63

/-! ## Opening a database -/

/-- One byte of the class `[A-Za-z0-9_]`. -/
def isNameByte (c : Byte) : Bool :=
  (decide (65 ≤ c.val) && decide (c.val ≤ 90)) || (decide (97 ≤ c.val) && decide (c.val ≤ 122))
    || (decide (48 ≤ c.val) && decide (c.val ≤ 57)) || decide (c.val = 95)

/-- Modelled from the spec: `validateDatabaseName` is not among the sources; a database name
is valid when the full name matches `[A-Za-z0-9_]+\.(db|idx|tt)`: the longest prefix of name
bytes is not empty and what follows it is `.db`, `.idx` or `.tt`. -/
def validateDatabaseName (name : GoString) : Bool :=
  let base := name.takeWhile isNameByte
  let ext := name.drop base.length
  decide (base ≠ [] ∧ (ext = lit ".db" ∨ ext = lit ".idx" ∨ ext = lit ".tt"))

/-- The documented pattern `[A-Za-z0-9_]+\.(db|idx|tt)` read as a full match: a non-empty
base of name bytes, a dot, and one of the three extensions. -/
def MatchesNamePattern (name : GoString) : Prop :=
  ∃ base ext, name = base ++ lit "." ++ ext ∧ base ≠ [] ∧ (∀ c ∈ base, isNameByte c = true) ∧
    (ext = lit "db" ∨ ext = lit "idx" ∨ ext = lit "tt")

namespace LVDB

/-- `LVDB.Open`: the new state and the returned error, if any.  `dataDir` is
`Config.DataDir`; `levigoOpen` is the library call `levigo.Open(path, opts)`, which yields a
database or an error (and then a nil handle). -/
def Open (dataDir : GoString) (levigoOpen : GoString → Except GoString DB) (s : LVDB)
    (dbname : GoString) : LVDB × Option GoString :=
  if !validateDatabaseName dbname then
    (s, some (lit "Invalid database name: " ++ dbname))
  else
    match levigoOpen (dataDir ++ lit "/" ++ dbname) with
    | .ok db => ({ s with _db := some db }, none)
    | .error e => ({ s with _db := none }, some e)

end LVDB

/-- A call on the store. -/
inductive StoreCall where
  | openDb : GoString → StoreCall
  | set : Bytes → Bytes → StoreCall
  | delete : Bytes → StoreCall
  | mergeSet : Bytes → Nat → StoreCall
  | startBatch : StoreCall
  | flushBatch : StoreCall
  | close : StoreCall
  deriving DecidableEq, Repr

namespace LVDB

/-- Perform one call on the store; a call that returns an error still leaves a state. -/
def step (dataDir : GoString) (levigoOpen : GoString → Except GoString DB) (s : LVDB) :
    StoreCall → Outcome LVDB
  | .openDb n => .ok (Open dataDir levigoOpen s n).1
  | .set k v => Set s k v
  | .delete k => Delete s k
  | .mergeSet k v => MergeSet s k v
  | .startBatch => .ok (StartBatch s)
  | .flushBatch => FlushBatch s
  | .close => .ok (Close s)

/-- Perform calls one after the other, stopping at the first one that panics. -/
def run (dataDir : GoString) (levigoOpen : GoString → Except GoString DB) (s : LVDB) :
    List StoreCall → Outcome LVDB
  | [] => .ok s
  | c :: rest => (step dataDir levigoOpen s c).bind (fun s1 => run dataDir levigoOpen s1 rest)

end LVDB

/-! ## The NeoSearch interface (`index.go`) -/

/-- The `Config` struct of package `neosearch`. -/
structure Config where
  DataDir : GoString
  Debug : Bool
  deriving DecidableEq, Repr

/-- What `index.go` takes from package `index`, which is not among the sources: the
constructor `index.New(name, config)` and the method `Close` of an index. -/
structure IndexLib (Index : Type) where
  newIndex : GoString → Config → Except GoString Index
  closeIndex : Index → Index

/-- The `NeoSearch` struct: the indices created so far and the configuration. -/
structure NeoSearch (Index : Type) where
  Indices : List Index
  config : Config
  deriving DecidableEq, Repr

/-- `New`: panics on an empty `DataDir`, otherwise removes one trailing slash, if any. -/
def New (Index : Type) (cfg : Config) : Outcome (NeoSearch Index) :=
  if cfg.DataDir = [] then .fault
  else
    let dataDir :=
      if cfg.DataDir.getLast? = some 47 then cfg.DataDir.take (cfg.DataDir.length - 1)
      else cfg.DataDir
    .ok { Indices := [], config := { cfg with DataDir := dataDir } }

/-- `NeoSearch.CreateIndex`: on success the new index is appended to `Indices`. -/
def NeoSearch.CreateIndex {Index : Type} (I : IndexLib Index) (neo : NeoSearch Index)
    (name : GoString) :
    Outcome (NeoSearch Index × Index) :=
  match I.newIndex name { DataDir := neo.config.DataDir, Debug := neo.config.Debug } with
  | .error e => .error e
  | .ok index => .ok ({ neo with Indices := neo.Indices ++ [index] }, index)

/-- Create the named indices one after the other. -/
def createIndices {Index : Type} (I : IndexLib Index) (neo : NeoSearch Index) :
    List GoString → Outcome (NeoSearch Index)
  | [] => .ok neo
  | name :: rest => (NeoSearch.CreateIndex I neo name).bind (fun r => createIndices I r.1 rest)

/-- `NeoSearch.Close`: every index of `Indices` is closed; the slice itself is not touched. -/
def NeoSearch.Close {Index : Type} (I : IndexLib Index) (neo : NeoSearch Index) :
    NeoSearch Index :=
  { neo with Indices := neo.Indices.map I.closeIndex }

/-! ## The indexing planner (package `index`) -/

/-- Declared type of a field in the metadata. -/
inductive FieldType where
  | string | uint | int | float | bool | date
  deriving DecidableEq, Repr

/-- Type name used in the file name of an inverted index; a date is stored as an int. -/
def FieldType.suffix : FieldType → GoString
  | .string => lit "string"
  | .uint => lit "uint"
  | .int => lit "int"
  | .float => lit "float"
  | .bool => lit "bool"
  | .date => lit "int"

/-- Type tag of the key of an inverted-index command; a date is stored as an int. -/
def FieldType.tag (t : TypeTags) : FieldType → Byte
  | .string => t.TypeString
  | .uint => t.TypeUint
  | .int => t.TypeInt
  | .float => t.TypeFloat
  | .bool => t.TypeBool
  | .date => t.TypeInt

/-- What the planner takes from outside the model, for JSON values of type `J`: the tag
constants, the JSON parser (top-level fields, or nothing on a parse error), the codec of
section 4.3 of the spec (the keys of a value under a declared type: one for a scalar, the
terms and the phrase for a string; nothing on a mismatch) and the lower-casing of a field
name. -/
structure PlannerLib (J : Type) where
  tags : TypeTags
  parseJSON : Bytes → Option (List (GoString × J))
  encodeKeys : FieldType → J → Option (List Bytes)
  toLower : GoString → GoString

/-- The `set` command on `document.db` that stores the document. -/
def documentCommand (t : TypeTags) (index : GoString) (id : Nat) (json : Bytes) : Command :=
  { Index := index, Database := lit "document.db", Command := lit "set",
    Key := some (Uint64ToBytes id), KeyType := t.TypeUint,
    Value := some json, ValueType := t.TypeString, Batch := false }

/-- One `mergeset` command of a field: key the encoded value or term, value the encoded
document ID. -/
def mergeCommand (t : TypeTags) (index database : GoString) (ty : FieldType) (id : Nat)
    (key : Bytes) : Command :=
  { Index := index, Database := database, Command := lit "mergeset",
    Key := some key, KeyType := ty.tag t,
    Value := some (Uint64ToBytes id), ValueType := t.TypeUint, Batch := false }

/-- The commands of one metadata field: none when the document lacks the field, an error
when the value does not fit the declared type. -/
def fieldCommands {J : Type} (P : PlannerLib J) (index : GoString) (id : Nat)
    (doc : List (GoString × J)) (field : GoString × FieldType) : Outcome (List Command) :=
  match doc.lookup field.1 with
  | none => .ok []
  | some v =>
    match P.encodeKeys field.2 v with
    | none => .error (lit "SchemaMismatch")
    | some keys =>
      .ok (keys.map (mergeCommand P.tags index
        (P.toLower field.1 ++ lit "_" ++ field.2.suffix ++ lit ".idx") field.2 id))

/-- The commands of all metadata fields, in the order of the metadata. -/
def indexCommands {J : Type} (P : PlannerLib J) (index : GoString) (id : Nat)
    (doc : List (GoString × J)) : List (GoString × FieldType) → Outcome (List Command)
  | [] => .ok []
  | field :: rest =>
    (fieldCommands P index id doc field).bind fun cs =>
    (indexCommands P index id doc rest).bind fun more => .ok (cs ++ more)

/-- Modelled from the spec: `Index.BuildAdd` is not among the sources (only its tests are);
per section 4.4 the planner emits one `set` on `document.db`, then for every metadata
field present in the document one `mergeset` per key on `<field>_<type>.idx`. -/
def BuildAdd {J : Type} (P : PlannerLib J) (index : GoString) (id : Nat) (json : Bytes)
    (metadata : List (GoString × FieldType)) : Outcome (List Command) :=
  match P.parseJSON json with
  | none => .error (lit "ParseError")
  | some doc =>
    (indexCommands P index id doc metadata).bind fun cs =>
    .ok (documentCommand P.tags index id json :: cs)

/-- An inverted-index command for document `id`: a `mergeset` on an `.idx` database of the
index whose value is the encoded document ID, tagged uint. -/
def IsIndexCommand (t : TypeTags) (index : GoString) (id : Nat) (c : Command) : Prop :=
  c.Command = lit "mergeset" ∧ c.Index = index ∧ (∃ base, c.Database = base ++ lit ".idx") ∧
    c.Value = some (Uint64ToBytes id) ∧ c.ValueType = t.TypeUint

/-- In batch mode the write batch is allocated. -/
def BatchAllocated (s : LVDB) : Prop :=
  s.isBatch = true → s._writeBatch.isSome = true

/-! ## Sample inputs -/

/-- An open store, not batching, holding the single record `a ↦ b`. -/
def sampleStore : LVDB :=
  { isBatch := false, _db := some [(lit "a", lit "b")], _writeBatch := none }

/-- An open store, not batching, whose database is empty. -/
def emptyStore : LVDB :=
  { isBatch := false, _db := some [], _writeBatch := none }

/-- A few buffered writes: two sets of one key, a set of another key, a delete. -/
def sampleCalls : List WriteCall :=
  [.set (lit "k") (lit "v1"), .set (lit "teste") (lit "i4k"), .set (lit "k") (lit "v2"),
    .delete (lit "a")]

/-- An open store, not batching, whose key `name` holds the given bytes. -/
def storeHolding (data : Bytes) : LVDB :=
  { isBatch := false, _db := some [(lit "name", data)], _writeBatch := none }

/-- One assignment of five different constants to the type tags. -/
def sampleTags : TypeTags :=
  { TypeString := 4, TypeUint := 1, TypeInt := 2, TypeFloat := 3, TypeBool := 5 }

/-- A library instance over `sampleTags`; the two functions are placeholders. -/
def sampleLib : Lib :=
  { tags := sampleTags, formatFloat := fun _ => lit "0", unicodeUpper := fun s => s }

/-- The document command of `Add(1, ...)`: a `set` on `document.db` with a uint key and a
string value. -/
def sampleSet : Command :=
  { Index := lit "idx", Database := lit "document.db", Command := lit "set",
    Key := some (Uint64ToBytes 1), KeyType := sampleTags.TypeUint,
    Value := some (lit "\x7b\x7d"), ValueType := sampleTags.TypeString, Batch := false }

/-- A `flushbatch` command without operands. -/
def sampleFlush : Command :=
  { Index := lit "idx", Database := lit "document.db", Command := lit "flushbatch",
    Key := none, KeyType := 0, Value := none, ValueType := 0, Batch := false }

/-- An index library whose indices are a name and an open flag. -/
def sampleIndexLib : IndexLib (GoString × Bool) :=
  { newIndex := fun name _ => .ok (name, true), closeIndex := fun i => (i.1, false) }

/-- A planner over documents whose values are natural numbers: every document parses to
the single field `id` with value 1, and only the type uint is accepted. -/
def samplePlanner : PlannerLib Nat :=
  { tags := sampleTags,
    parseJSON := fun _ => some [(lit "id", 1)],
    encodeKeys := fun ty n => match ty with
      | .uint => some [Uint64ToBytes n]
      | _ => none,
    toLower := lowerStr }

/-- An open store in batch mode with an empty write batch whose key `name` holds the given
bytes. -/
def batchStoreHolding (data : Bytes) : LVDB :=
  { isBatch := true, _db := some [(lit "name", data)], _writeBatch := some [] }

/-- A `get` command whose uint key is the largest 64-bit value. -/
def sampleGetMax : Command :=
  { Index := lit "idx", Database := lit "document.db", Command := lit "get",
    Key := some (Uint64ToBytes (2 ^ 64 - 1)), KeyType := sampleTags.TypeUint,
    Value := none, ValueType := 0, Batch := false }

/-- The store after opening a database, one flushed batch with `Set(a, b)`, and a second
`StartBatch`. -/
def rebatchedStore : LVDB :=
  { isBatch := true, _db := some [(lit "a", lit "b")], _writeBatch := some [] }

/-- A `set` command whose uint key is `2 ^ 63`. -/
def sampleSetLarge : Command :=
  { Index := lit "idx", Database := lit "document.db", Command := lit "set",
    Key := some (Uint64ToBytes (2 ^ 63)), KeyType := sampleTags.TypeUint,
    Value := some (lit "\x7b\x7d"), ValueType := sampleTags.TypeString, Batch := false }

/-! ## Facts about the database model -/

theorem DB.get_delete (db : DB) (k k1 : Bytes) :
    (DB.delete db k).get k1 = if k = k1 then none else db.get k1 := by
  induction db with
  | nil => simp [DB.delete, DB.get]
  | cons p rest ih =>
    obtain ⟨a, b⟩ := p
    unfold DB.delete at ih ⊢
    rw [List.filter_cons]
    by_cases ha : a = k
    · subst ha
      simp only [ne_eq, not_true_eq_false, decide_False, Bool.false_eq_true, if_false]
      rw [ih]
      by_cases hk : a = k1
      · simp [hk]
      · simp [hk, DB.get]
    · simp only [ne_eq, ha, not_false_eq_true, decide_True, if_true]
      by_cases ha1 : a = k1
      · subst ha1
        have hk : ¬ k = a := fun h => ha h.symm
        simp [DB.get, hk]
      · simp only [DB.get, ha1, if_false]
        exact ih

theorem DB.get_put (db : DB) (k v k1 : Bytes) :
    (DB.put db k v).get k1 = if k = k1 then some v else db.get k1 := by
  by_cases hk : k = k1
  · simp [DB.put, DB.get, hk]
  · simp [DB.put, DB.get, hk, DB.get_delete]

theorem DB.get_write_puts_of_not_mem (kvs : List (Bytes × Bytes)) (db : DB) (k : Bytes)
    (hk : k ∉ kvs.map Prod.fst) :
    (DB.write db (kvs.map (fun p => BatchOp.put p.1 p.2))).get k = db.get k := by
  induction kvs generalizing db with
  | nil => rfl
  | cons p rest ih =>
    simp only [List.map_cons, List.mem_cons, not_or] at hk
    have h1 := ih (DB.put db p.1 p.2) hk.2
    simp only [DB.write, List.map_cons, List.foldl_cons, DB.applyOp] at h1 ⊢
    rw [h1, DB.get_put]
    simp [Ne.symm hk.1]

theorem DB.get_write_puts_last (pre post : List (Bytes × Bytes)) (db : DB) (k v : Bytes)
    (hk : k ∉ post.map Prod.fst) :
    (DB.write db ((pre ++ (k, v) :: post).map (fun p => BatchOp.put p.1 p.2))).get k
      = some v := by
  have h := DB.get_write_puts_of_not_mem post
    (DB.put (DB.write db (pre.map (fun p => BatchOp.put p.1 p.2))) k v) k hk
  simp only [DB.write, List.map_append, List.map_cons, List.foldl_append, List.foldl_cons,
    DB.applyOp] at h ⊢
  rw [h, DB.get_put]
  simp

/-! ## Facts about write calls -/

theorem LVDB.calls_batch (cs : List WriteCall) (s : LVDB) (wb : WriteBatch)
    (hb : s.isBatch = true) (hw : s._writeBatch = some wb) :
    LVDB.calls s cs = .ok { s with _writeBatch := some (wb ++ cs.map WriteCall.toOp) } := by
  induction cs generalizing s wb with
  | nil =>
    obtain ⟨b, d, w⟩ := s
    simp only at hb hw
    subst hb hw
    simp [LVDB.calls]
  | cons c rest ih =>
    obtain ⟨b, d, w⟩ := s
    simp only at hb hw
    subst hb hw
    cases c with
    | set k v =>
      simp only [LVDB.calls, LVDB.call, LVDB.Set, Outcome.bind, if_true]
      rw [ih _ (wb ++ [BatchOp.put k v]) rfl rfl]
      simp [WriteCall.toOp]
    | delete k =>
      simp only [LVDB.calls, LVDB.call, LVDB.Delete, Outcome.bind, if_true]
      rw [ih _ (wb ++ [BatchOp.delete k]) rfl rfl]
      simp [WriteCall.toOp]

theorem LVDB.calls_startBatch (cs : List WriteCall) (s : LVDB) :
    LVDB.calls (LVDB.StartBatch s) cs
      = .ok { s with isBatch := true, _writeBatch := some (cs.map WriteCall.toOp) } := by
  have h : LVDB.StartBatch s = { s with isBatch := true, _writeBatch := some [] } := by
    unfold LVDB.StartBatch; cases s._writeBatch <;> rfl
  rw [h, LVDB.calls_batch cs _ [] rfl rfl]
  simp

theorem LVDB.sets_unbatched (kvs : List (Bytes × Bytes)) (s : LVDB) (db : DB)
    (hb : s.isBatch = false) (hd : s._db = some db) :
    LVDB.sets s kvs
      = .ok { s with _db := some (DB.write db (kvs.map (fun p => BatchOp.put p.1 p.2))) } := by
  induction kvs generalizing s db with
  | nil =>
    obtain ⟨b, d, w⟩ := s
    simp only at hb hd
    subst hb hd
    simp [LVDB.sets, LVDB.calls, DB.write]
  | cons p rest ih =>
    obtain ⟨b, d, w⟩ := s
    simp only at hb hd
    subst hb hd
    have h1 := ih { isBatch := false, _db := some (DB.put db p.1 p.2), _writeBatch := w }
      (DB.put db p.1 p.2) rfl rfl
    simp only [LVDB.sets] at h1
    simp [LVDB.sets, LVDB.calls, LVDB.call, LVDB.Set, Outcome.bind, h1, DB.write, DB.applyOp]

/-! ## Facts about the codec and the merge loop -/

theorem range8 : List.range 8 = [0,1,2,3,4,5,6,7] := by decide

theorem BytesToUint64_Uint64ToBytes (v : Nat) : BytesToUint64 (Uint64ToBytes v) = v % 2 ^ 64 := by
  unfold BytesToUint64 Uint64ToBytes
  rw [range8]
  simp only [List.map, List.foldl, Fin.ofNat]
  norm_num
  omega

theorem Uint64ToBytes_length (v : Nat) : (Uint64ToBytes v).length = 8 := by
  simp [Uint64ToBytes]

theorem encodeValues_length (xs : List Nat) : (encodeValues xs).length = 8 * xs.length := by
  induction xs with
  | nil => rfl
  | cons x rest ih =>
    simp only [encodeValues, List.map_cons, List.flatten_cons, List.length_append,
      Uint64ToBytes_length, List.length_cons] at ih ⊢
    omega

theorem decode_encodeValues (xs : List Nat) (j : Nat) (x : Nat) (hx : xs[j]? = some x)
    (hlt : x < 2 ^ 64) :
    BytesToUint64 (((encodeValues xs).drop (8 * j)).take 8) = x := by
  induction xs generalizing j with
  | nil => simp at hx
  | cons y rest ih =>
    cases j with
    | zero =>
      simp only [List.getElem?_cons_zero, Option.some.injEq] at hx
      subst hx
      simp only [encodeValues, List.map_cons, List.flatten_cons, Nat.mul_zero, List.drop_zero]
      rw [List.take_append_of_le_length (by simp [Uint64ToBytes_length])]
      rw [List.take_of_length_le (by simp [Uint64ToBytes_length])]
      rw [BytesToUint64_Uint64ToBytes]
      exact Nat.mod_eq_of_lt hlt
    | succ j =>
      simp only [List.getElem?_cons_succ] at hx
      have h8 : 8 * (j + 1) = (Uint64ToBytes y).length + 8 * j := by
        rw [Uint64ToBytes_length]; omega
      simp only [encodeValues, List.map_cons, List.flatten_cons]
      rw [h8, List.drop_append]
      exact ih j hx

theorem LVDB.mem_loopOffsets (L i : Nat) :
    i ∈ LVDB.loopOffsets L ↔ ∃ j, j < (L + 7) / 8 ∧ i = 8 * j := by
  simp only [LVDB.loopOffsets, List.mem_map, List.mem_range]
  constructor
  · rintro ⟨j, hj, rfl⟩; exact ⟨j, hj, rfl⟩
  · rintro ⟨j, hj, rfl⟩; exact ⟨j, hj, rfl⟩

theorem LVDB.loopOffsets_pairwise (L : Nat) : (LVDB.loopOffsets L).Pairwise (· < ·) := by
  unfold LVDB.loopOffsets
  rw [List.pairwise_map]
  exact (List.pairwise_lt_range _).imp (fun h => by omega)

theorem LVDB.mergeLoop_ne_done (data : Bytes) (value : Nat) (offs : List Nat) (i : Nat)
    (hi : i ∈ offs) (hoob : data.length < i + 8) (values vs : List Nat) :
    LVDB.mergeLoop data value values offs ≠ .done vs := by
  induction offs generalizing values with
  | nil => simp at hi
  | cons i0 rest ih =>
    unfold LVDB.mergeLoop
    by_cases h0 : data.length < i0 + 8
    · simp [h0]
    · have hmem : i ∈ rest := by
        rcases List.mem_cons.1 hi with h | h
        · subst h; exact absurd hoob h0
        · exact h
      simp only [h0, if_false]
      split
      · simp
      · split
        · exact ih hmem _
        · simp

theorem LVDB.mergeLoop_fault (data : Bytes) (value : Nat) (offs : List Nat) (i : Nat)
    (hp : offs.Pairwise (· < ·)) (hi : i ∈ offs)
    (hne : ∀ i1 ∈ offs, i1 ≤ i → BytesToUint64 ((data.drop i1).take 8) ≠ value)
    (values : List Nat) (hlen : values.length ≤ i) :
    LVDB.mergeLoop data value values offs = .fault := by
  induction offs generalizing values with
  | nil => simp at hi
  | cons i0 rest ih =>
    unfold LVDB.mergeLoop
    by_cases h0 : data.length < i0 + 8
    · simp [h0]
    · have hp2 := List.pairwise_cons.1 hp
      have hle : i0 ≤ i := by
        rcases List.mem_cons.1 hi with h | h
        · omega
        · exact Nat.le_of_lt (hp2.1 i h)
      have hv := hne i0 (List.mem_cons_self _ _) hle
      simp only [h0, if_false, hv]
      by_cases hidx : i0 < values.length
      · have hmem : i ∈ rest := by
          rcases List.mem_cons.1 hi with h | h
          · omega
          · exact h
        simp only [hidx, if_true]
        exact ih hp2.2 hmem (fun i1 h1 => hne i1 (List.mem_cons_of_mem _ h1)) _
          (by simpa using hlen)
      · simp [hidx]

/-- `MergeSet` on an open store when the key holds `data`, in terms of the decoding loop. -/
theorem LVDB.MergeSet_unfold (s : LVDB) (db : DB) (key data : Bytes) (value : Nat)
    (h : s._db = some db) (hg : db.get key = some data) (hpos : 0 < data.length) :
    LVDB.MergeSet s key value =
      match LVDB.mergeLoop data value (List.replicate (data.length / 8 + 1) 0)
          (LVDB.loopOffsets data.length) with
      | .fault => .fault
      | .found => .ok s
      | .done values =>
        if data.length / 8 < values.length then
          LVDB.Set s key (encodeValues (sortUint64 (values.set (data.length / 8) value)))
        else .fault := by
  simp [LVDB.MergeSet, LVDB.Get, h, hg, hpos]

theorem LVDB.MergeSet_fault_of_absent (s : LVDB) (db : DB) (key : Bytes) (xs : List Nat)
    (value : Nat) (h : s._db = some db) (hg : db.get key = some (encodeValues xs))
    (hlen : 2 ≤ xs.length) (hbound : ∀ x ∈ xs, x < 2 ^ 64) (habs : value ∉ xs) :
    LVDB.MergeSet s key value = .fault := by
  have hL := encodeValues_length xs
  rw [LVDB.MergeSet_unfold s db key _ value h hg (by omega)]
  rw [LVDB.mergeLoop_fault (encodeValues xs) value _ (8 * (xs.length - 1))
    (LVDB.loopOffsets_pairwise _)]
  · rw [LVDB.mem_loopOffsets]
    exact ⟨xs.length - 1, by omega, rfl⟩
  · intro i1 h1 _
    obtain ⟨j, hj, rfl⟩ := (LVDB.mem_loopOffsets _ _).1 h1
    have hjlt : j < xs.length := by omega
    have hget : xs[j]? = some xs[j] := List.getElem?_eq_getElem hjlt
    rw [decode_encodeValues xs j _ hget (hbound _ (List.getElem_mem _))]
    intro heq
    exact habs (heq ▸ List.getElem_mem _)
  · simp only [List.length_replicate]
    omega

theorem LVDB.MergeSet_fault_of_late (s : LVDB) (db : DB) (key : Bytes) (xs : List Nat)
    (value j : Nat) (h : s._db = some db) (hg : db.get key = some (encodeValues xs))
    (hsorted : xs.Pairwise (· < ·)) (hbound : ∀ x ∈ xs, x < 2 ^ 64)
    (hj : xs[j]? = some value) (hj1 : 1 ≤ j) (hlate : xs.length < 8 * (j - 1)) :
    LVDB.MergeSet s key value = .fault := by
  have hL := encodeValues_length xs
  have hjlt : j < xs.length := by
    rcases List.getElem?_eq_some_iff.1 hj with ⟨hlt, _⟩
    exact hlt
  rw [LVDB.MergeSet_unfold s db key _ value h hg (by omega)]
  rw [LVDB.mergeLoop_fault (encodeValues xs) value _ (8 * (j - 1))
    (LVDB.loopOffsets_pairwise _)]
  · rw [LVDB.mem_loopOffsets]
    exact ⟨j - 1, by omega, rfl⟩
  · intro i1 h1 hle
    obtain ⟨j1, hj1lt, rfl⟩ := (LVDB.mem_loopOffsets _ _).1 h1
    have hj1j : j1 < j := by omega
    have hj1len : j1 < xs.length := by omega
    have hget : xs[j1]? = some xs[j1] := List.getElem?_eq_getElem hj1len
    rw [decode_encodeValues xs j1 _ hget (hbound _ (List.getElem_mem _))]
    have hval : xs[j] = value := by
      rcases List.getElem?_eq_some_iff.1 hj with ⟨_, hv⟩
      exact hv
    have := List.pairwise_iff_getElem.1 hsorted j1 j hj1len hjlt hj1j
    omega
  · simp only [List.length_replicate]
    omega

theorem LVDB.MergeSet_of_ragged (s : LVDB) (db : DB) (key data : Bytes) (value : Nat)
    (h : s._db = some db) (hg : db.get key = some data) (hrag : data.length % 8 ≠ 0) :
    LVDB.MergeSet s key value = .fault ∨ LVDB.MergeSet s key value = .ok s := by
  rw [LVDB.MergeSet_unfold s db key data value h hg (by omega)]
  have hnd := LVDB.mergeLoop_ne_done data value (LVDB.loopOffsets data.length)
    (8 * ((data.length + 7) / 8 - 1))
    ((LVDB.mem_loopOffsets _ _).2 ⟨(data.length + 7) / 8 - 1, by omega, rfl⟩) (by omega)
    (List.replicate (data.length / 8 + 1) 0)
  cases hloop : LVDB.mergeLoop data value (List.replicate (data.length / 8 + 1) 0)
      (LVDB.loopOffsets data.length) with
  | done vs => exact absurd hloop (hnd vs)
  | found => right; rfl
  | fault => left; rfl
/-! ## Facts about command rendering -/

theorem upperByte_lowerByte : ∀ b : Byte, upperByte (lowerByte b) = upperByte b := by decide

theorem ascii_of_lowerByte : ∀ b : Byte, (lowerByte b).val < 128 → b.val < 128 := by decide

theorem ToUpper_of_lowerStr (L : Lib) (s t : GoString) (h : lowerStr s = t)
    (hascii : ∀ b ∈ t, b.val < 128) : ToUpper L s = upperStr t := by
  have hall : s.all (fun c => decide (c.val < 128)) = true := by
    rw [List.all_eq_true]
    intro b hb
    have : lowerByte b ∈ t := by
      rw [← h]; exact List.mem_map_of_mem _ hb
    simpa using ascii_of_lowerByte b (hascii _ this)
  unfold ToUpper
  rw [if_pos hall, ← h]
  simp [upperStr, lowerStr, List.map_map, Function.comp_def, upperByte_lowerByte]

theorem operand_ne_error (L : Lib) (ty : Byte) (o : Option Bytes) (e : GoString) :
    Command.operand L ty o ≠ .error e := by
  cases o with
  | none => simp [Command.operand]
  | some b =>
    simp only [Command.operand, Command.operandStr]
    repeat' split
    all_goals simp

/-! ## Batch mode and reads -/

/-- C5: after `StartBatch` on an open store, any sequence of `Set` and `Delete` calls
returns normally and leaves `Get` of every key as it was before `StartBatch`; a key that is
absent from the database still reads as nil, without error. -/
theorem batch_reads_ignore_buffer (s : LVDB) (db : DB) (cs : List WriteCall)
    (h : s._db = some db) :
    ∃ s1, LVDB.calls (LVDB.StartBatch s) cs = .ok s1 ∧
      (∀ k, LVDB.Get s1 k = LVDB.Get s k) ∧
      (∀ k, LVDB.Get s1 k = .ok (db.get k)) ∧
      (∀ k, db.get k = none → LVDB.Get s1 k = .ok none) := by
  refine ⟨_, LVDB.calls_startBatch cs s, ?_, ?_, ?_⟩
  · intro k; simp [LVDB.Get]
  · intro k; simp [LVDB.Get, h]
  · intro k hk; simp [LVDB.Get, h, hk]

theorem batch_reads_ignore_buffer_witness :
    sampleStore._db = some [(lit "a", lit "b")] ∧
    ∃ s1, LVDB.calls (LVDB.StartBatch sampleStore) sampleCalls = .ok s1 ∧
      (∀ k, LVDB.Get s1 k = LVDB.Get sampleStore k) ∧
      (∀ k, LVDB.Get s1 k = .ok (DB.get [(lit "a", lit "b")] k)) ∧
      (∀ k, DB.get [(lit "a", lit "b")] k = none → LVDB.Get s1 k = .ok none) :=
  ⟨rfl, batch_reads_ignore_buffer sampleStore [(lit "a", lit "b")] sampleCalls rfl⟩

/-- C6: after `StartBatch` on an open store, any sequence of `Set` calls followed by
`FlushBatch` returns normally; afterwards a key reads the value of its last `Set` in the
batch, a key not written in the batch reads its value from before the batch, the write batch
is empty and `IsBatch` is false. -/
theorem flush_commits_batch (s : LVDB) (db : DB) (kvs : List (Bytes × Bytes))
    (h : s._db = some db) :
    ∃ s1 s2, LVDB.sets (LVDB.StartBatch s) kvs = .ok s1 ∧ LVDB.FlushBatch s1 = .ok s2 ∧
      (∀ pre post k v, kvs = pre ++ (k, v) :: post → k ∉ post.map Prod.fst →
        LVDB.Get s2 k = .ok (some v)) ∧
      (∀ k, k ∉ kvs.map Prod.fst → LVDB.Get s2 k = LVDB.Get s k) ∧
      s2._writeBatch = some [] ∧ LVDB.IsBatch s2 = false := by
  have hops : (kvs.map (fun p => WriteCall.set p.1 p.2)).map WriteCall.toOp
      = kvs.map (fun p => BatchOp.put p.1 p.2) := by
    simp [List.map_map, Function.comp_def, WriteCall.toOp]
  refine ⟨_, LVDB.mk false (some (DB.write db (kvs.map (fun p => BatchOp.put p.1 p.2))))
      (some []), LVDB.calls_startBatch _ s, ?_, ?_, ?_, ?_, ?_⟩
  · simp only [LVDB.FlushBatch, h, hops]
  · intro pre post k v hkv hk
    subst hkv
    simp only [LVDB.Get, hops]
    rw [DB.get_write_puts_last pre post db k v hk]
  · intro k hk
    simp only [LVDB.Get, hops, h]
    rw [DB.get_write_puts_of_not_mem kvs db k hk]
  · rfl
  · rfl

theorem flush_commits_batch_witness :
    sampleStore._db = some [(lit "a", lit "b")] ∧
    ∃ s1 s2, LVDB.sets (LVDB.StartBatch sampleStore)
        [(lit "k", lit "v1"), (lit "teste", lit "i4k"), (lit "k", lit "v2")] = .ok s1 ∧
      LVDB.FlushBatch s1 = .ok s2 ∧
      (∀ pre post k v,
        [(lit "k", lit "v1"), (lit "teste", lit "i4k"), (lit "k", lit "v2")]
          = pre ++ (k, v) :: post →
        k ∉ post.map Prod.fst → LVDB.Get s2 k = .ok (some v)) ∧
      (∀ k, k ∉ [(lit "k", lit "v1"), (lit "teste", lit "i4k"), (lit "k", lit "v2")].map
          Prod.fst → LVDB.Get s2 k = LVDB.Get sampleStore k) ∧
      s2._writeBatch = some [] ∧ LVDB.IsBatch s2 = false :=
  ⟨rfl, flush_commits_batch sampleStore [(lit "a", lit "b")]
    [(lit "k", lit "v1"), (lit "teste", lit "i4k"), (lit "k", lit "v2")] rfl⟩

/-- C7: outside batch mode, `Set(k, v)` on an open store returns normally, `Get(k)` then
returns exactly `v`, and `Get` of every other key is unchanged; in a store that started
empty, a key that none of the `Set` calls wrote reads as nil, without error. -/
theorem set_get_roundtrip (s : LVDB) (db : DB) (k v : Bytes) (kvs : List (Bytes × Bytes))
    (k0 : Bytes) (hb : s.isBatch = false) (h : s._db = some db)
    (hk0 : k0 ∉ kvs.map Prod.fst) :
    (∃ s1, LVDB.Set s k v = .ok s1 ∧ LVDB.Get s1 k = .ok (some v) ∧
      ∀ k1, k1 ≠ k → LVDB.Get s1 k1 = LVDB.Get s k1) ∧
    (∃ s2, LVDB.sets { s with _db := some [] } kvs = .ok s2 ∧ LVDB.Get s2 k0 = .ok none) := by
  constructor
  · refine ⟨{ s with _db := some (db.put k v) }, ?_, ?_, ?_⟩
    · simp [LVDB.Set, hb, h]
    · simp [LVDB.Get, DB.get_put]
    · intro k1 hk1
      simp [LVDB.Get, DB.get_put, h, Ne.symm hk1]
  · refine ⟨_, LVDB.sets_unbatched kvs { s with _db := some [] } [] hb rfl, ?_⟩
    simp only [LVDB.Get]
    rw [DB.get_write_puts_of_not_mem kvs [] k0 hk0]
    rfl

theorem set_get_roundtrip_witness :
    (sampleStore.isBatch = false ∧ sampleStore._db = some [(lit "a", lit "b")] ∧
      lit "do not exists" ∉ [(lit "teste", lit "i4k"), (lit "plan9", lit "from")].map
        Prod.fst) ∧
    (∃ s1, LVDB.Set sampleStore (lit "teste") (lit "i4k") = .ok s1 ∧
      LVDB.Get s1 (lit "teste") = .ok (some (lit "i4k")) ∧
      ∀ k1, k1 ≠ lit "teste" → LVDB.Get s1 k1 = LVDB.Get sampleStore k1) ∧
    (∃ s2, LVDB.sets { sampleStore with _db := some [] }
        [(lit "teste", lit "i4k"), (lit "plan9", lit "from")] = .ok s2 ∧
      LVDB.Get s2 (lit "do not exists") = .ok none) :=
  ⟨⟨rfl, rfl, by decide⟩,
    set_get_roundtrip sampleStore [(lit "a", lit "b")] (lit "teste") (lit "i4k")
      [(lit "teste", lit "i4k"), (lit "plan9", lit "from")] (lit "do not exists") rfl rfl
      (by decide)⟩

/-- C8: `StartBatch` sets batch mode with an empty write batch and is idempotent; on an open
store, the writes buffered after a first `StartBatch` are discarded by a second one, so that
a following `FlushBatch` returns normally and leaves the database as it was before the first
`StartBatch` (in particular for the single buffered write `Set(k, v)`). -/
theorem startBatch_resets_buffer (s : LVDB) (db : DB) (k v : Bytes) (cs : List WriteCall)
    (h : s._db = some db) :
    LVDB.IsBatch (LVDB.StartBatch s) = true ∧
    (LVDB.StartBatch s)._writeBatch = some [] ∧
    LVDB.StartBatch (LVDB.StartBatch s) = LVDB.StartBatch s ∧
    (∃ s1 s2, LVDB.Set (LVDB.StartBatch s) k v = .ok s1 ∧
      s1._writeBatch = some [BatchOp.put k v] ∧
      (LVDB.StartBatch s1)._writeBatch = some [] ∧
      LVDB.FlushBatch (LVDB.StartBatch s1) = .ok s2 ∧ s2._db = some db) ∧
    (∃ s1 s2, LVDB.calls (LVDB.StartBatch s) cs = .ok s1 ∧
      (LVDB.StartBatch s1)._writeBatch = some [] ∧
      LVDB.FlushBatch (LVDB.StartBatch s1) = .ok s2 ∧ s2._db = some db) := by
  have hsb : ∀ t : LVDB, LVDB.StartBatch t = { t with isBatch := true, _writeBatch := some [] } := by
    intro t; unfold LVDB.StartBatch; cases t._writeBatch <;> rfl
  refine ⟨?_, ?_, ?_, ?_, ?_⟩
  · simp [hsb, LVDB.IsBatch]
  · simp [hsb]
  · simp [hsb]
  · refine ⟨{ s with isBatch := true, _writeBatch := some [BatchOp.put k v] },
      { s with isBatch := false, _writeBatch := some [] }, ?_, rfl, ?_, ?_, h⟩
    · simp [hsb, LVDB.Set]
    · simp [hsb]
    · simp [hsb, LVDB.FlushBatch, h, DB.write]
  · refine ⟨_, { s with isBatch := false, _writeBatch := some [] },
      LVDB.calls_startBatch cs s, ?_, ?_, h⟩
    · simp [hsb]
    · simp [hsb, LVDB.FlushBatch, h, DB.write]

theorem startBatch_resets_buffer_witness :
    sampleStore._db = some [(lit "a", lit "b")] ∧
    (LVDB.FlushBatch (LVDB.StartBatch sampleStore)).bind (fun s2 => .ok s2._db)
      = .ok sampleStore._db ∧
    ∃ s1 s2, LVDB.Set (LVDB.StartBatch sampleStore) (lit "a") (lit "z") = .ok s1 ∧
      s1._writeBatch = some [BatchOp.put (lit "a") (lit "z")] ∧
      (LVDB.StartBatch s1)._writeBatch = some [] ∧
      LVDB.FlushBatch (LVDB.StartBatch s1) = .ok s2 ∧
      s2._db = some [(lit "a", lit "b")] :=
  ⟨rfl, by decide,
    (startBatch_resets_buffer sampleStore [(lit "a", lit "b")] (lit "a") (lit "z")
      sampleCalls rfl).2.2.2.1⟩

/-! ## Merge-set -/

/-- C1: on an open store whose key holds a valid posting list of two or more values that does
not contain `value`, `MergeSet` does not write the merged list: the decoding loop indexes
`values` with the byte offset and the call panics. -/
theorem mergeSet_faults_when_absent (s : LVDB) (db : DB) (key : Bytes) (xs : List Nat)
    (value : Nat) (h : s._db = some db) (hg : db.get key = some (encodeValues xs))
    (hlen : 2 ≤ xs.length) (hbound : ∀ x ∈ xs, x < 2 ^ 64) (habs : value ∉ xs) :
    LVDB.MergeSet s key value = .fault :=
  LVDB.MergeSet_fault_of_absent s db key xs value h hg hlen hbound habs

theorem mergeSet_faults_when_absent_witness :
    LVDB.MergeSet (storeHolding (encodeValues [1, 2])) (lit "name") 3 = .fault :=
  mergeSet_faults_when_absent (storeHolding (encodeValues [1, 2]))
    [(lit "name", encodeValues [1, 2])] (lit "name") [1, 2] 3 rfl (by decide) (by decide)
    (by decide) (by decide)

/-- C2: on an open store whose key holds a valid posting list of two or more values that does
not contain `value`, two `MergeSet(key, value)` calls in a row do not both succeed: the first
one already panics. -/
theorem mergeSet_twice_faults (s : LVDB) (db : DB) (key : Bytes) (xs : List Nat)
    (value : Nat) (h : s._db = some db) (hg : db.get key = some (encodeValues xs))
    (hlen : 2 ≤ xs.length) (hbound : ∀ x ∈ xs, x < 2 ^ 64) (habs : value ∉ xs) :
    (LVDB.MergeSet s key value).bind (fun s1 => LVDB.MergeSet s1 key value) = .fault := by
  rw [LVDB.MergeSet_fault_of_absent s db key xs value h hg hlen hbound habs]
  rfl

theorem mergeSet_twice_faults_witness :
    (LVDB.MergeSet (storeHolding (encodeValues [10, 20])) (lit "name") 15).bind
      (fun s1 => LVDB.MergeSet s1 (lit "name") 15) = .fault :=
  mergeSet_twice_faults (storeHolding (encodeValues [10, 20]))
    [(lit "name", encodeValues [10, 20])] (lit "name") [10, 20] 15 rfl (by decide) (by decide)
    (by decide) (by decide)

/-- C3: on an open store whose key holds a valid posting list that contains `value` at index
`j`, `MergeSet` panics instead of returning success when the list has fewer than `8 * (j - 1)`
values, for instance when `value` is the third of three values. -/
theorem mergeSet_faults_when_present_late (s : LVDB) (db : DB) (key : Bytes) (xs : List Nat)
    (value j : Nat) (h : s._db = some db) (hg : db.get key = some (encodeValues xs))
    (hsorted : xs.Pairwise (· < ·)) (hbound : ∀ x ∈ xs, x < 2 ^ 64)
    (hj : xs[j]? = some value) (hlate : xs.length < 8 * (j - 1)) :
    LVDB.MergeSet s key value = .fault :=
  LVDB.MergeSet_fault_of_late s db key xs value j h hg hsorted hbound hj (by omega) hlate

theorem mergeSet_faults_when_present_late_witness :
    LVDB.MergeSet (storeHolding (encodeValues [1, 2, 3])) (lit "name") 3 = .fault :=
  mergeSet_faults_when_present_late (storeHolding (encodeValues [1, 2, 3]))
    [(lit "name", encodeValues [1, 2, 3])] (lit "name") [1, 2, 3] 3 2 rfl (by decide)
    (by decide) (by decide) (by decide) (by decide)

/-- C4, as claimed, fails: with three bytes stored under the key `MergeSet` panics, and with
eleven bytes whose first eight decode to `value` it returns success; neither call returns an
error. -/
theorem mergeSet_ragged_counterexample :
    ([1, 2, 3] : Bytes).length % 8 ≠ 0 ∧
    LVDB.MergeSet (storeHolding [1, 2, 3]) (lit "name") 7 = .fault ∧
    (encodeValues [7] ++ [1, 2, 3]).length % 8 ≠ 0 ∧
    LVDB.MergeSet (storeHolding (encodeValues [7] ++ [1, 2, 3])) (lit "name") 7
      = .ok (storeHolding (encodeValues [7] ++ [1, 2, 3])) := by
  decide

/-- C4, amended: on an open store whose key holds a value whose byte length is not a multiple
of 8, `MergeSet` returns no error and writes nothing: it either panics or returns success
with the store (database and write batch) unchanged. -/
theorem mergeSet_ragged_no_write (s : LVDB) (db : DB) (key data : Bytes) (value : Nat)
    (h : s._db = some db) (hg : db.get key = some data) (hrag : data.length % 8 ≠ 0) :
    (LVDB.MergeSet s key value = .fault ∨ LVDB.MergeSet s key value = .ok s) ∧
    ∀ e, LVDB.MergeSet s key value ≠ .error e := by
  have hr := LVDB.MergeSet_of_ragged s db key data value h hg hrag
  refine ⟨hr, ?_⟩
  intro e he
  rcases hr with h1 | h1 <;> rw [h1] at he <;> cases he

theorem mergeSet_ragged_no_write_witness :
    (LVDB.MergeSet (storeHolding [1, 2, 3]) (lit "name") 7 = .fault ∨
      LVDB.MergeSet (storeHolding [1, 2, 3]) (lit "name") 7 = .ok (storeHolding [1, 2, 3])) ∧
    ∀ e, LVDB.MergeSet (storeHolding [1, 2, 3]) (lit "name") 7 ≠ .error e :=
  mergeSet_ragged_no_write (storeHolding [1, 2, 3]) [(lit "name", [1, 2, 3])] (lit "name")
    [1, 2, 3] 7 rfl (by decide) (by decide)

/-! ## Command rendering -/

/-- C10: for a command whose operation, compared without regard to ASCII case, is flushbatch,
`Reverse` does not return the textual form: the upper-cased operation never equals the
lower-case label `flushbatch` of the switch, so the call panics. -/
theorem reverse_flushbatch_panics (L : Lib) (c : Command)
    (h : lowerStr c.Command = lit "flushbatch") : Command.Reverse L c = .fault := by
  have hup : ToUpper L c.Command = lit "FLUSHBATCH" := by
    rw [ToUpper_of_lowerStr L _ _ h (by decide)]
    decide
  unfold Command.Reverse
  cases h1 : Command.operand L c.KeyType c.Key with
  | error e => exact absurd h1 (operand_ne_error _ _ _ _)
  | fault => rfl
  | ok k =>
    cases h2 : Command.operand L c.ValueType c.Value with
    | error e => exact absurd h2 (operand_ne_error _ _ _ _)
    | fault => rfl
    | ok v =>
      simp only [Outcome.bind, hup]
      rw [if_neg (by decide), if_neg (by decide), if_neg (by decide)]

theorem reverse_flushbatch_panics_witness :
    lowerStr sampleFlush.Command = lit "flushbatch" ∧
    Command.Reverse sampleLib sampleFlush = .fault :=
  ⟨by decide, reverse_flushbatch_panics sampleLib sampleFlush (by decide)⟩


/-! ## Database names -/

theorem takeWhile_append_stop {α : Type} (p : α → Bool) (l r : List α) (a : α)
    (hl : ∀ x ∈ l, p x = true) (ha : p a = false) :
    (l ++ a :: r).takeWhile p = l := by
  induction l with
  | nil => simp [List.takeWhile, ha]
  | cons x xs ih =>
    have hx := hl x (List.mem_cons_self _ _)
    simp only [List.cons_append, List.takeWhile_cons, hx, if_true]
    rw [ih (fun y hy => hl y (List.mem_cons_of_mem _ hy))]

theorem takeWhile_append_drop_length {α : Type} (p : α → Bool) (l : List α) :
    l.takeWhile p ++ l.drop (l.takeWhile p).length = l := by
  induction l with
  | nil => rfl
  | cons x xs ih =>
    by_cases hx : p x = true
    · simp only [List.takeWhile_cons, hx, if_true, List.length_cons, List.drop_succ_cons,
        List.cons_append]
      rw [ih]
    · simp [List.takeWhile_cons, hx]

theorem lit_dot_ext :
    lit ".db" = lit "." ++ lit "db" ∧ lit ".idx" = lit "." ++ lit "idx" ∧
      lit ".tt" = lit "." ++ lit "tt" := by
  decide

theorem validateDatabaseName_iff (name : GoString) :
    validateDatabaseName name = true ↔ MatchesNamePattern name := by
  obtain ⟨e1, e2, e3⟩ := lit_dot_ext
  constructor
  · intro h
    simp only [validateDatabaseName, decide_eq_true_eq] at h
    obtain ⟨hbase, hext⟩ := h
    have hsplit := takeWhile_append_drop_length isNameByte name
    have hall : ∀ c ∈ name.takeWhile isNameByte, isNameByte c = true :=
      fun c hc => List.mem_takeWhile_imp hc
    rcases hext with h1 | h1 | h1
    · refine ⟨_, lit "db", ?_, hbase, hall, Or.inl rfl⟩
      rw [List.append_assoc, ← e1, ← h1, hsplit]
    · refine ⟨_, lit "idx", ?_, hbase, hall, Or.inr (Or.inl rfl)⟩
      rw [List.append_assoc, ← e2, ← h1, hsplit]
    · refine ⟨_, lit "tt", ?_, hbase, hall, Or.inr (Or.inr rfl)⟩
      rw [List.append_assoc, ← e3, ← h1, hsplit]
  · rintro ⟨base, ext, hname, hbase, hall, hext⟩
    have hdot : lit "." = [(46 : Byte)] := by decide
    have htw : name.takeWhile isNameByte = base := by
      rw [hname, List.append_assoc, hdot]
      exact takeWhile_append_stop isNameByte base ext 46 hall (by decide)
    have hdrop : name.drop base.length = lit "." ++ ext := by
      rw [hname, List.append_assoc, List.drop_left]
    simp only [validateDatabaseName, decide_eq_true_eq, htw, hdrop]
    refine ⟨hbase, ?_⟩
    rcases hext with h1 | h1 | h1 <;> subst h1
    · exact Or.inl e1.symm
    · exact Or.inr (Or.inl e2.symm)
    · exact Or.inr (Or.inr e3.symm)

/-- C11: `Open` rejects every database name that does not match
`[A-Za-z0-9_]+\.(db|idx|tt)`: it returns the invalid-database-name error and leaves the store
as it was, so a store that was not open stays not open; a name that matches is passed on to
`levigo.Open`, and the store is open when that call succeeds. -/
theorem open_validates_name (dataDir : GoString) (levigoOpen : GoString → Except GoString DB)
    (s : LVDB) (bad good : GoString) (db : DB)
    (hbad : ¬ MatchesNamePattern bad) (hgood : MatchesNamePattern good)
    (hdisk : levigoOpen (dataDir ++ lit "/" ++ good) = .ok db) :
    LVDB.Open dataDir levigoOpen s bad = (s, some (lit "Invalid database name: " ++ bad)) ∧
    (LVDB.IsOpen s = false → LVDB.IsOpen (LVDB.Open dataDir levigoOpen s bad).1 = false) ∧
    validateDatabaseName bad = false ∧ validateDatabaseName good = true ∧
    LVDB.Open dataDir levigoOpen s good = ({ s with _db := some db }, none) ∧
    LVDB.IsOpen (LVDB.Open dataDir levigoOpen s good).1 = true := by
  have hb : validateDatabaseName bad = false := by
    cases hv : validateDatabaseName bad with
    | false => rfl
    | true => exact absurd ((validateDatabaseName_iff bad).1 hv) hbad
  have hg : validateDatabaseName good = true := (validateDatabaseName_iff good).2 hgood
  have hopen : LVDB.Open dataDir levigoOpen s bad
      = (s, some (lit "Invalid database name: " ++ bad)) := by
    simp [LVDB.Open, hb]
  have hopen2 : LVDB.Open dataDir levigoOpen s good = ({ s with _db := some db }, none) := by
    simp only [LVDB.Open, hg, Bool.not_true, Bool.false_eq_true, if_false, hdisk]
  refine ⟨hopen, ?_, hb, hg, hopen2, ?_⟩
  · intro h; rw [hopen]; exact h
  · rw [hopen2]; rfl

theorem open_validates_name_witness :
    (∀ name ∈ [lit "", lit "1", lit "12", lit "123", lit "1234", lit ".db", lit ".idx",
        lit "...db", lit "sample", lit "sample.", lit "sample.a", lit "sample/test.db"],
      validateDatabaseName name = false) ∧
    LVDB.Open (lit "/tmp") (fun _ => .ok []) LVDB.NewLVDB (lit "sample/test.db")
      = (LVDB.NewLVDB, some (lit "Invalid database name: sample/test.db")) ∧
    LVDB.IsOpen (LVDB.Open (lit "/tmp") (fun _ => .ok []) LVDB.NewLVDB
      (lit "sample/test.db")).1 = false ∧
    LVDB.IsOpen (LVDB.Open (lit "/tmp") (fun _ => .ok []) LVDB.NewLVDB (lit "123.tt")).1
      = true :=
  have h := open_validates_name (lit "/tmp") (fun _ => .ok []) LVDB.NewLVDB
    (lit "sample/test.db") (lit "123.tt") []
    (fun hm => absurd ((validateDatabaseName_iff _).2 hm) (by decide))
    ((validateDatabaseName_iff _).1 (by decide)) rfl
  ⟨by decide, h.1, h.2.1 rfl, h.2.2.2.2.2⟩

/-! ## The NeoSearch interface -/

/-- C12, as claimed, fails: for the data directory `data//` the stored `DataDir` is `data/`,
which still ends with a slash. -/
theorem new_double_slash_counterexample :
    New Unit { DataDir := lit "data//", Debug := false }
      = .ok { Indices := [], config := { DataDir := lit "data/", Debug := false } } ∧
    (lit "data/").getLast? = some 47 := by
  decide

/-- C12, amended: for a non-empty `DataDir`, `New` returns a NeoSearch without indices whose
`Debug` flag is the given one and whose `DataDir` is the given path with one trailing slash
removed when it ends with a slash, and the given path otherwise; the stored `DataDir` ends
with a slash only when the given path ends with two; an empty `DataDir` panics. -/
theorem new_strips_one_slash (Index : Type) (cfg : Config) (h : cfg.DataDir ≠ []) :
    (∃ neo, New Index cfg = .ok neo ∧ neo.Indices = [] ∧ neo.config.Debug = cfg.Debug ∧
      (cfg.DataDir.getLast? = some 47 → neo.config.DataDir ++ [47] = cfg.DataDir) ∧
      (cfg.DataDir.getLast? ≠ some 47 → neo.config.DataDir = cfg.DataDir) ∧
      (neo.config.DataDir.getLast? = some 47 →
        ∃ p, cfg.DataDir = p ++ [47, 47])) ∧
    New Index { cfg with DataDir := [] } = .fault := by
  refine ⟨?_, by simp [New]⟩
  by_cases hl : cfg.DataDir.getLast? = some 47
  · have hsplit : cfg.DataDir.take (cfg.DataDir.length - 1) ++ [47] = cfg.DataDir := by
      have h1 := List.dropLast_append_getLast? 47 (Option.mem_def.2 hl)
      rwa [List.dropLast_eq_take] at h1
    refine ⟨NeoSearch.mk [] (Config.mk (cfg.DataDir.take (cfg.DataDir.length - 1)) cfg.Debug),
      by simp only [New, h, if_false, hl, if_true], rfl, rfl,
      fun _ => hsplit, fun hn => absurd hl hn, ?_⟩
    intro h2
    have h3 := List.dropLast_append_getLast? 47 (Option.mem_def.2 h2)
    refine ⟨(cfg.DataDir.take (cfg.DataDir.length - 1)).dropLast, ?_⟩
    calc cfg.DataDir = cfg.DataDir.take (cfg.DataDir.length - 1) ++ [47] := hsplit.symm
      _ = ((cfg.DataDir.take (cfg.DataDir.length - 1)).dropLast ++ [47]) ++ [47] := by
        rw [h3]
      _ = _ := by simp
  · refine ⟨NeoSearch.mk [] (Config.mk cfg.DataDir cfg.Debug),
      by simp only [New, h, if_false, hl], rfl, rfl, fun hn => absurd hn hl,
      fun _ => rfl, fun h2 => absurd h2 hl⟩

theorem new_strips_one_slash_witness :
    (∃ neo, New Unit { DataDir := lit "/tmp/neosearch/", Debug := true } = .ok neo ∧
      neo.Indices = [] ∧ neo.config.Debug = true ∧
      ((lit "/tmp/neosearch/").getLast? = some 47 →
        neo.config.DataDir ++ [47] = lit "/tmp/neosearch/") ∧
      ((lit "/tmp/neosearch/").getLast? ≠ some 47 →
        neo.config.DataDir = lit "/tmp/neosearch/") ∧
      (neo.config.DataDir.getLast? = some 47 →
        ∃ p, lit "/tmp/neosearch/" = p ++ [47, 47])) ∧
    New Unit { DataDir := [], Debug := true } = .fault :=
  new_strips_one_slash Unit { DataDir := lit "/tmp/neosearch/", Debug := true } (by decide)

theorem createIndices_length {Index : Type} (I : IndexLib Index) (names : List GoString)
    (neo neo1 : NeoSearch Index) (h : createIndices I neo names = .ok neo1) :
    neo1.Indices.length = neo.Indices.length + names.length := by
  induction names generalizing neo with
  | nil =>
    simp only [createIndices, Outcome.ok.injEq] at h
    subst h; rfl
  | cons name rest ih =>
    simp only [createIndices, NeoSearch.CreateIndex] at h
    cases hn : I.newIndex name { DataDir := neo.config.DataDir, Debug := neo.config.Debug } with
    | error e => rw [hn] at h; simp [Outcome.bind] at h
    | ok index =>
      rw [hn] at h
      simp only [Outcome.bind] at h
      have h1 := ih _ h
      simp only [List.length_append, List.length_cons, List.length_nil] at h1 ⊢
      omega

/-- C13: after `Close`, the indices are still in `Indices`: when `n` indices were created on
a new NeoSearch, `Close` closes each of them but leaves all `n` in the slice, so the number
of indices afterwards is `n`, not 0. -/
theorem close_keeps_indices {Index : Type} (I : IndexLib Index) (cfg : Config)
    (names : List GoString) (neo0 neo1 : NeoSearch Index)
    (hnew : New Index cfg = .ok neo0) (hcreate : createIndices I neo0 names = .ok neo1) :
    (NeoSearch.Close I neo1).Indices = neo1.Indices.map I.closeIndex ∧
    (NeoSearch.Close I neo1).Indices.length = names.length := by
  have h0 : neo0.Indices = [] := by
    unfold New at hnew
    split at hnew
    · cases hnew
    · simp only [Outcome.ok.injEq] at hnew
      subst hnew; rfl
  have h1 := createIndices_length I names neo0 neo1 hcreate
  refine ⟨rfl, ?_⟩
  simp only [NeoSearch.Close, List.length_map, h1, h0, List.length_nil, Nat.zero_add]

theorem close_keeps_indices_witness :
    (NeoSearch.Close sampleIndexLib
      { Indices := [(lit "test-batch", true)],
        config := { DataDir := lit "/tmp", Debug := false } }).Indices
      = [(lit "test-batch", false)] ∧
    (NeoSearch.Close sampleIndexLib
      { Indices := [(lit "test-batch", true)],
        config := { DataDir := lit "/tmp", Debug := false } }).Indices.length = 1 :=
  close_keeps_indices sampleIndexLib { DataDir := lit "/tmp/", Debug := false }
    [lit "test-batch"] { Indices := [], config := { DataDir := lit "/tmp", Debug := false } }
    { Indices := [(lit "test-batch", true)],
      config := { DataDir := lit "/tmp", Debug := false } } (by decide) (by decide)

/-! ## The indexing planner -/

theorem fieldCommands_shape {J : Type} (P : PlannerLib J) (index : GoString) (id : Nat)
    (doc : List (GoString × J)) (field : GoString × FieldType) (cs : List Command)
    (h : fieldCommands P index id doc field = .ok cs) :
    ∀ c ∈ cs, IsIndexCommand P.tags index id c := by
  unfold fieldCommands at h
  split at h
  · simp only [Outcome.ok.injEq] at h
    subst h
    intro c hc
    simp at hc
  · split at h
    · cases h
    · simp only [Outcome.ok.injEq] at h
      subst h
      intro c hc
      obtain ⟨k, _, rfl⟩ := List.mem_map.1 hc
      exact ⟨rfl, rfl, ⟨_, rfl⟩, rfl, rfl⟩

theorem indexCommands_shape {J : Type} (P : PlannerLib J) (index : GoString) (id : Nat)
    (doc : List (GoString × J)) (metadata : List (GoString × FieldType)) (cs : List Command)
    (h : indexCommands P index id doc metadata = .ok cs) :
    ∀ c ∈ cs, IsIndexCommand P.tags index id c := by
  induction metadata generalizing cs with
  | nil =>
    simp only [indexCommands, Outcome.ok.injEq] at h
    subst h
    intro c hc
    simp at hc
  | cons field rest ih =>
    simp only [indexCommands] at h
    cases h1 : fieldCommands P index id doc field with
    | error e => rw [h1] at h; cases h
    | fault => rw [h1] at h; cases h
    | ok cs1 =>
      cases h2 : indexCommands P index id doc rest with
      | error e => rw [h1, h2] at h; cases h
      | fault => rw [h1, h2] at h; cases h
      | ok cs2 =>
        rw [h1, h2] at h
        simp only [Outcome.bind, Outcome.ok.injEq] at h
        subst h
        intro c hc
        rcases List.mem_append.1 hc with hc | hc
        · exact fieldCommands_shape P index id doc field cs1 h1 c hc
        · exact ih cs2 h2 c hc

/-- C14: when `BuildAdd` succeeds, the first command is a `set` on `document.db` of the
index whose key is the 8-byte big-endian document ID (tag uint) and whose value is the JSON
as given (tag string); every command after it is a `mergeset` on an `.idx` database of the
same index whose value is the 8-byte big-endian document ID (tag uint). -/
theorem buildAdd_document_first {J : Type} (P : PlannerLib J) (index : GoString) (id : Nat)
    (json : Bytes) (metadata : List (GoString × FieldType)) (cmds : List Command)
    (h : BuildAdd P index id json metadata = .ok cmds) :
    ∃ doc rest, cmds = doc :: rest ∧
      doc.Index = index ∧ doc.Database = lit "document.db" ∧ doc.Command = lit "set" ∧
      doc.Key = some (Uint64ToBytes id) ∧ doc.KeyType = P.tags.TypeUint ∧
      doc.Value = some json ∧ doc.ValueType = P.tags.TypeString ∧
      (Uint64ToBytes id).length = 8 ∧ BytesToUint64 (Uint64ToBytes id) = id % 2 ^ 64 ∧
      ∀ c ∈ rest, IsIndexCommand P.tags index id c := by
  unfold BuildAdd at h
  split at h
  · cases h
  · rename_i fields _
    cases h1 : indexCommands P index id fields metadata with
    | error e => rw [h1] at h; cases h
    | fault => rw [h1] at h; cases h
    | ok cs =>
      rw [h1] at h
      simp only [Outcome.bind, Outcome.ok.injEq] at h
      subst h
      exact ⟨_, cs, rfl, rfl, rfl, rfl, rfl, rfl, rfl, rfl, Uint64ToBytes_length id,
        BytesToUint64_Uint64ToBytes id, indexCommands_shape P index id fields metadata cs h1⟩

theorem buildAdd_document_first_witness :
    BuildAdd samplePlanner (lit "document-sample-metadata") 1 (lit "\x7b\x22id\x22: 1\x7d")
        [(lit "id", FieldType.uint)]
      = .ok [documentCommand sampleTags (lit "document-sample-metadata") 1
          (lit "\x7b\x22id\x22: 1\x7d"),
        mergeCommand sampleTags (lit "document-sample-metadata") (lit "id_uint.idx")
          FieldType.uint 1 (Uint64ToBytes 1)] ∧
    ∃ doc rest,
      [documentCommand sampleTags (lit "document-sample-metadata") 1
          (lit "\x7b\x22id\x22: 1\x7d"),
        mergeCommand sampleTags (lit "document-sample-metadata") (lit "id_uint.idx")
          FieldType.uint 1 (Uint64ToBytes 1)] = doc :: rest ∧
      doc.Index = lit "document-sample-metadata" ∧ doc.Database = lit "document.db" ∧
      doc.Command = lit "set" ∧
      doc.Key = some (Uint64ToBytes 1) ∧ doc.KeyType = samplePlanner.tags.TypeUint ∧
      doc.Value = some (lit "\x7b\x22id\x22: 1\x7d") ∧
      doc.ValueType = samplePlanner.tags.TypeString ∧
      (Uint64ToBytes 1).length = 8 ∧ BytesToUint64 (Uint64ToBytes 1) = 1 % 2 ^ 64 ∧
      ∀ c ∈ rest, IsIndexCommand samplePlanner.tags (lit "document-sample-metadata") 1 c :=
  ⟨by decide,
    buildAdd_document_first samplePlanner (lit "document-sample-metadata") 1
      (lit "\x7b\x22id\x22: 1\x7d") [(lit "id", FieldType.uint)] _ (by decide)⟩

/-! ## The batch flag and the write batch -/

theorem LVDB.Set_preserves (s s1 : LVDB) (k v : Bytes) (hi : BatchAllocated s)
    (h : LVDB.Set s k v = .ok s1) : BatchAllocated s1 := by
  obtain ⟨b, d, w⟩ := s
  unfold LVDB.Set at h
  cases b <;> cases d <;> cases w <;> simp at h <;> subst h <;> simp [BatchAllocated]

theorem LVDB.Delete_preserves (s s1 : LVDB) (k : Bytes) (hi : BatchAllocated s)
    (h : LVDB.Delete s k = .ok s1) : BatchAllocated s1 := by
  obtain ⟨b, d, w⟩ := s
  unfold LVDB.Delete at h
  cases b <;> cases d <;> cases w <;> simp at h <;> subst h <;> simp [BatchAllocated]

theorem LVDB.MergeSet_ok_cases (s s1 : LVDB) (k : Bytes) (v : Nat)
    (h : LVDB.MergeSet s k v = .ok s1) : s1 = s ∨ ∃ val, LVDB.Set s k val = .ok s1 := by
  unfold LVDB.MergeSet at h
  split at h
  · cases h
  · cases h
  · simp only at h
    split at h
    · cases h
    · simp only [Outcome.ok.injEq] at h
      exact Or.inl h.symm
    · split at h
      · exact Or.inr ⟨_, h⟩
      · cases h

theorem LVDB.step_preserves (dataDir : GoString) (levigoOpen : GoString → Except GoString DB)
    (s s1 : LVDB) (c : StoreCall) (hi : BatchAllocated s)
    (h : LVDB.step dataDir levigoOpen s c = .ok s1) : BatchAllocated s1 := by
  cases c with
  | openDb n =>
    simp only [LVDB.step, Outcome.ok.injEq] at h
    subst h
    unfold LVDB.Open
    split
    · exact hi
    · split <;> exact hi
  | set k v => exact LVDB.Set_preserves s s1 k v hi h
  | delete k => exact LVDB.Delete_preserves s s1 k hi h
  | mergeSet k v =>
    rcases LVDB.MergeSet_ok_cases s s1 k v h with h1 | ⟨val, h1⟩
    · subst h1; exact hi
    · exact LVDB.Set_preserves s s1 k val hi h1
  | startBatch =>
    simp only [LVDB.step, Outcome.ok.injEq] at h
    subst h
    unfold LVDB.StartBatch
    split <;> intro _ <;> rfl
  | flushBatch =>
    simp only [LVDB.step] at h
    unfold LVDB.FlushBatch at h
    split at h
    · simp only [Outcome.ok.injEq] at h
      subst h; exact hi
    · split at h
      · cases h
      · simp only [Outcome.ok.injEq] at h
        subst h
        intro _; rfl
  | close =>
    simp only [LVDB.step, Outcome.ok.injEq] at h
    subst h
    obtain ⟨b, d, w⟩ := s
    cases d <;> cases w <;> simp_all [LVDB.Close, BatchAllocated]

theorem LVDB.run_preserves (dataDir : GoString) (levigoOpen : GoString → Except GoString DB)
    (cs : List StoreCall) (s s1 : LVDB) (hi : BatchAllocated s)
    (h : LVDB.run dataDir levigoOpen s cs = .ok s1) : BatchAllocated s1 := by
  induction cs generalizing s with
  | nil =>
    simp only [LVDB.run, Outcome.ok.injEq] at h
    subst h; exact hi
  | cons c rest ih =>
    simp only [LVDB.run] at h
    cases hs : LVDB.step dataDir levigoOpen s c with
    | error e => rw [hs] at h; cases h
    | fault => rw [hs] at h; cases h
    | ok s2 =>
      rw [hs] at h
      exact ih s2 (LVDB.step_preserves dataDir levigoOpen s s2 c hi hs) h

/-- C15: in every state reached from `NewLVDB` by calls of `Open`, `Set`, `Delete`,
`MergeSet`, `StartBatch`, `FlushBatch` and `Close`, batch mode implies that the write batch
is allocated; hence `Set` and `Delete` in batch mode return normally, buffering the write. -/
theorem batch_mode_has_write_batch (dataDir : GoString)
    (levigoOpen : GoString → Except GoString DB) (cs : List StoreCall) (s : LVDB)
    (h : LVDB.run dataDir levigoOpen LVDB.NewLVDB cs = .ok s) :
    (s.isBatch = true → s._writeBatch.isSome = true) ∧
    (s.isBatch = true → ∀ k v, ∃ wb,
      s._writeBatch = some wb ∧
      LVDB.Set s k v = .ok { s with _writeBatch := some (wb ++ [BatchOp.put k v]) } ∧
      LVDB.Delete s k = .ok { s with _writeBatch := some (wb ++ [BatchOp.delete k]) }) := by
  have hinv : BatchAllocated s :=
    LVDB.run_preserves dataDir levigoOpen cs _ s (by intro hb; cases hb) h
  refine ⟨hinv, ?_⟩
  intro hb k v
  have hw := hinv hb
  obtain ⟨b, d, w⟩ := s
  simp only at hb hw
  subst hb
  cases w with
  | none => cases hw
  | some wb => exact ⟨wb, rfl, by simp [LVDB.Set], by simp [LVDB.Delete]⟩

theorem batch_mode_has_write_batch_witness :
    LVDB.run (lit "/tmp") (fun _ => .ok []) LVDB.NewLVDB
        [.openDb (lit "test.db"), .startBatch, .set (lit "a") (lit "b"), .flushBatch,
          .startBatch]
      = .ok rebatchedStore ∧
    LVDB.Set rebatchedStore (lit "k") (lit "v")
      = .ok { rebatchedStore with _writeBatch := some [BatchOp.put (lit "k") (lit "v")] } ∧
    ((rebatchedStore.isBatch = true → rebatchedStore._writeBatch.isSome = true) ∧
      (rebatchedStore.isBatch = true → ∀ k v, ∃ wb,
        rebatchedStore._writeBatch = some wb ∧
        LVDB.Set rebatchedStore k v
          = .ok { rebatchedStore with _writeBatch := some (wb ++ [BatchOp.put k v]) } ∧
        LVDB.Delete rebatchedStore k
          = .ok { rebatchedStore with _writeBatch := some (wb ++ [BatchOp.delete k]) })) :=
  ⟨by decide, by decide,
    batch_mode_has_write_batch (lit "/tmp") (fun _ => .ok [])
      [.openDb (lit "test.db"), .startBatch, .set (lit "a") (lit "b"), .flushBatch,
        .startBatch] rebatchedStore (by decide)⟩

/-! ## Merge-set inside a batch -/

theorem loopOffsets_eight : LVDB.loopOffsets 8 = [0] := by decide

theorem LVDB.MergeSet_short (s : LVDB) (db : DB) (key : Bytes) (P : List Nat) (v : Nat)
    (h : s._db = some db) (hg : db.get key = some (encodeValues P)) (hlen : P.length ≤ 1)
    (hbound : ∀ x ∈ P, x < 2 ^ 64) (hv : v ∉ P) :
    LVDB.MergeSet s key v = LVDB.Set s key (encodeValues (sortUint64 (P ++ [v]))) := by
  match P, hlen with
  | [], _ =>
    simp [LVDB.MergeSet, LVDB.Get, h, hg, encodeValues]
  | [x], _ =>
    have hx : x ≠ v := by
      intro hxv; exact hv (by simp [hxv])
    have hdec := decode_encodeValues [x] 0 x rfl (hbound x (by simp))
    have hL := encodeValues_length [x]
    simp only [List.length_singleton, Nat.mul_one, Nat.mul_zero, List.drop_zero] at hL hdec
    rw [LVDB.MergeSet_unfold s db key _ v h hg (by omega), hL, loopOffsets_eight]
    simp [LVDB.mergeLoop, hL, hdec, hx]

theorem LVDB.MergeSet_batch_last_wins (s : LVDB) (db : DB) (wb : WriteBatch) (key : Bytes)
    (P : List Nat) (a b : Nat) (hb : s.isBatch = true) (hw : s._writeBatch = some wb)
    (h : s._db = some db) (hg : db.get key = some (encodeValues P)) (hlen : P.length ≤ 1)
    (hbound : ∀ x ∈ P, x < 2 ^ 64) (ha : a ∉ P) (hbP : b ∉ P) :
    ∃ s3, (LVDB.MergeSet s key a).bind
        (fun s1 => (LVDB.MergeSet s1 key b).bind LVDB.FlushBatch) = .ok s3 ∧
      LVDB.Get s3 key = .ok (some (encodeValues (sortUint64 (P ++ [b])))) ∧
      LVDB.IsBatch s3 = false := by
  obtain ⟨bt, d, w⟩ := s
  simp only at hb hw h
  subst hb hw h
  rw [LVDB.MergeSet_short _ db key P a rfl hg hlen hbound ha]
  simp only [LVDB.Set, if_true, Outcome.bind]
  rw [LVDB.MergeSet_short _ db key P b rfl hg hlen hbound hbP]
  simp only [LVDB.Set, if_true, Outcome.bind, LVDB.FlushBatch]
  refine ⟨_, rfl, ?_, rfl⟩
  simp only [LVDB.Get, DB.write, List.foldl_append, List.foldl_cons, List.foldl_nil,
    DB.applyOp, DB.get_put, if_true]

/-- C16: inside a batch, when the key holds a valid posting list of two or more values that
does not contain `a`, the sequence `MergeSet(key, a)`, `MergeSet(key, b)`, `FlushBatch` does
not leave any merged list: the first `MergeSet` already panics. -/
theorem mergeSet_batch_faults (s : LVDB) (db : DB) (key : Bytes) (P : List Nat) (a b : Nat)
    (hb : s.isBatch = true) (h : s._db = some db)
    (hg : db.get key = some (encodeValues P)) (hlen : 2 ≤ P.length)
    (hbound : ∀ x ∈ P, x < 2 ^ 64) (ha : a ∉ P) :
    s.isBatch = true ∧
    (LVDB.MergeSet s key a).bind
      (fun s1 => (LVDB.MergeSet s1 key b).bind LVDB.FlushBatch) = .fault := by
  rw [LVDB.MergeSet_fault_of_absent s db key P a h hg hlen hbound ha]
  exact ⟨hb, rfl⟩

theorem mergeSet_batch_faults_witness :
    (batchStoreHolding (encodeValues [1, 2])).isBatch = true ∧
    (LVDB.MergeSet (batchStoreHolding (encodeValues [1, 2])) (lit "name") 3).bind
      (fun s1 => (LVDB.MergeSet s1 (lit "name") 4).bind LVDB.FlushBatch) = .fault :=
  mergeSet_batch_faults (batchStoreHolding (encodeValues [1, 2]))
    [(lit "name", encodeValues [1, 2])] (lit "name") [1, 2] 3 4 rfl rfl (by decide)
    (by decide) (by decide) (by decide)

/-! ## Integer operands -/

theorem toInt64_high (n : Nat) (h1 : 2 ^ 63 ≤ n) (h2 : n < 2 ^ 64) :
    Itoa (toInt64 n) = lit "-" ++ decimal (2 ^ 64 - n) := by
  have hm : n % 2 ^ 64 = n := Nat.mod_eq_of_lt h2
  have hneg : toInt64 n = (n : Int) - 2 ^ 64 := by
    unfold toInt64
    rw [hm, if_neg (by omega)]
  have hlt : ((n : Int) - 2 ^ 64) < 0 := by omega
  have habs : ((n : Int) - 2 ^ 64).natAbs = 2 ^ 64 - n := by omega
  rw [hneg]
  unfold Itoa
  rw [if_pos hlt, habs]

theorem toInt64_low (n : Nat) (h : n < 2 ^ 63) : Itoa (toInt64 n) = decimal n := by
  have hm : n % 2 ^ 64 = n := Nat.mod_eq_of_lt (by omega)
  have hpos : toInt64 n = (n : Int) := by
    unfold toInt64
    rw [hm, if_pos h]
  rw [hpos]
  unfold Itoa
  rw [if_neg (by omega)]
  simp

/-- C17: a uint operand that encodes a value `n` of `2 ^ 63` or more is rendered as `uint(`
followed by a minus sign and the decimal digits of `2 ^ 64 - n`, the same digits as for an
int operand, and not as the decimal digits of `n`; below `2 ^ 63` it is rendered as
`uint(n)`. -/
theorem reverse_uint_rendered_signed (L : Lib) (n m : Nat) (hd : L.tags.Distinct)
    (h1 : 2 ^ 63 ≤ n) (h2 : n < 2 ^ 64) (hm : m < 2 ^ 63) :
    Command.operand L L.tags.TypeUint (some (Uint64ToBytes n))
      = .ok (lit "uint(" ++ (lit "-" ++ decimal (2 ^ 64 - n)) ++ lit ")") ∧
    Command.operand L L.tags.TypeInt (some (Uint64ToBytes n))
      = .ok (lit "int(" ++ (lit "-" ++ decimal (2 ^ 64 - n)) ++ lit ")") ∧
    Command.operand L L.tags.TypeUint (some (Uint64ToBytes m))
      = .ok (lit "uint(" ++ decimal m ++ lit ")") := by
  simp only [TypeTags.Distinct, List.nodup_cons, List.mem_cons, List.mem_singleton,
    not_or, List.not_mem_nil, not_false_eq_true, List.nodup_nil, and_true] at hd
  obtain ⟨⟨h12, h13, _, _⟩, ⟨h23, _, _⟩, _, _⟩ := hd
  have hn : BytesToUint64 (Uint64ToBytes n) = n := by
    rw [BytesToUint64_Uint64ToBytes]; exact Nat.mod_eq_of_lt h2
  have hm2 : BytesToUint64 (Uint64ToBytes m) = m := by
    rw [BytesToUint64_Uint64ToBytes]; exact Nat.mod_eq_of_lt (by omega)
  refine ⟨?_, ?_, ?_⟩
  · simp only [Command.operand, Command.operandStr, if_neg (Ne.symm h12), if_true, hn,
      toInt64_high n h1 h2]
  · simp only [Command.operand, Command.operandStr, if_neg (Ne.symm h13),
      if_neg (Ne.symm h23), if_true, BytesToInt64, hn, toInt64_high n h1 h2]
  · simp only [Command.operand, Command.operandStr, if_neg (Ne.symm h12), if_true, hm2,
      toInt64_low m hm]

theorem reverse_uint_rendered_signed_witness :
    Command.Reverse sampleLib sampleGetMax
      = .ok (lit "USING idx.document.db GET uint(-1);") ∧
    Command.Reverse sampleLib sampleGetMax
      ≠ .ok (lit "USING idx.document.db GET uint(18446744073709551615);") ∧
    (Command.operand sampleLib sampleLib.tags.TypeUint (some (Uint64ToBytes (2 ^ 64 - 1)))
      = .ok (lit "uint(" ++ (lit "-" ++ decimal (2 ^ 64 - (2 ^ 64 - 1))) ++ lit ")") ∧
    Command.operand sampleLib sampleLib.tags.TypeInt (some (Uint64ToBytes (2 ^ 64 - 1)))
      = .ok (lit "int(" ++ (lit "-" ++ decimal (2 ^ 64 - (2 ^ 64 - 1))) ++ lit ")") ∧
    Command.operand sampleLib sampleLib.tags.TypeUint (some (Uint64ToBytes 7))
      = .ok (lit "uint(" ++ decimal 7 ++ lit ")")) :=
  ⟨by decide, by decide,
    reverse_uint_rendered_signed sampleLib (2 ^ 64 - 1) 7 (by decide) (by decide) (by decide)
      (by decide)⟩

/-! ## The documented reverse form -/

theorem digitChar_ne_minus :
    ∀ k, k < 10 → (Fin.ofNat (Nat.digitChar k).toNat : Byte) ≠ 45 := by
  decide

theorem toDigitsCore_ne_minus (fuel : Nat) :
    ∀ (n : Nat) (ds : List Char), (∀ c ∈ ds, (Fin.ofNat c.toNat : Byte) ≠ 45) →
      ∀ c ∈ Nat.toDigitsCore 10 fuel n ds, (Fin.ofNat c.toNat : Byte) ≠ 45 := by
  induction fuel with
  | zero =>
    intro n ds hds c hc
    simp only [Nat.toDigitsCore] at hc
    exact hds c hc
  | succ fuel ih =>
    intro n ds hds c hc
    have hcons : ∀ c ∈ Nat.digitChar (n % 10) :: ds, (Fin.ofNat c.toNat : Byte) ≠ 45 := by
      intro c1 h1
      rcases List.mem_cons.1 h1 with h2 | h2
      · rw [h2]; exact digitChar_ne_minus _ (Nat.mod_lt _ (by decide))
      · exact hds c1 h2
    simp only [Nat.toDigitsCore] at hc
    split at hc
    · exact hcons c hc
    · exact ih _ _ hcons c hc

theorem decimal_ne_minus (n : Nat) : ∀ x ∈ decimal n, x ≠ 45 := by
  intro x hx
  simp only [decimal, List.mem_map] at hx
  obtain ⟨c, hc, rfl⟩ := hx
  exact toDigitsCore_ne_minus _ n [] (by simp) c hc

theorem operand_documented (L : Lib) (ty : Byte) (o : Option Bytes) (hd : L.tags.Distinct)
    (hv : ValidOperand L ty o) (hs : UintBelowSign L ty o) :
    ∃ str, Command.operand L ty o = .ok str ∧ DocumentedLiteral L ty o str := by
  cases o with
  | none => exact ⟨[], rfl, rfl⟩
  | some b =>
    simp only [TypeTags.Distinct, List.nodup_cons, List.mem_cons, List.mem_singleton,
      not_or, List.not_mem_nil, not_false_eq_true, List.nodup_nil, and_true] at hd
    obtain ⟨⟨h12, h13, h14, h15⟩, ⟨h23, h24, h25⟩, ⟨h34, h35⟩, h45⟩ := hd
    simp only [ValidOperand] at hv
    simp only [Command.operand, Command.operandStr, DocumentedLiteral]
    rcases hv with h | h | ⟨h | h | h, _⟩
    · subst h
      exact ⟨_, by simp, Or.inl ⟨rfl, rfl⟩⟩
    · subst h
      refine ⟨lit "bool(" ++ b ++ lit ")", ?_, Or.inr (Or.inl ⟨rfl, rfl⟩)⟩
      simp [Ne.symm h15, Ne.symm h25, Ne.symm h35, Ne.symm h45]
    · subst h
      refine ⟨lit "uint(" ++ decimal (BytesToUint64 b) ++ lit ")", ?_,
        Or.inr (Or.inr (Or.inl ⟨rfl, rfl⟩))⟩
      simp [Ne.symm h12, toInt64_low _ (hs b rfl rfl)]
    · subst h
      refine ⟨lit "int(" ++ Itoa (BytesToInt64 b) ++ lit ")", ?_,
        Or.inr (Or.inr (Or.inr (Or.inl ⟨rfl, rfl⟩)))⟩
      simp [Ne.symm h13, Ne.symm h23]
    · subst h
      refine ⟨lit "float(" ++ L.formatFloat b ++ lit ")", ?_,
        Or.inr (Or.inr (Or.inr (Or.inr ⟨rfl, rfl⟩)))⟩
      simp [Ne.symm h14, Ne.symm h24, Ne.symm h34]

theorem operand_ok_of_valid (L : Lib) (ty : Byte) (o : Option Bytes)
    (hv : ValidOperand L ty o) : ∃ str, Command.operand L ty o = .ok str := by
  cases o with
  | none => exact ⟨[], rfl⟩
  | some b =>
    simp only [ValidOperand] at hv
    simp only [Command.operand, Command.operandStr]
    rcases hv with h | h | ⟨h | h | h, _⟩ <;> subst h <;> repeat' split
    all_goals first | exact ⟨_, rfl⟩ | simp_all

theorem BytesToUint64_lt (b : Bytes) : BytesToUint64 b < 2 ^ 64 :=
  Nat.mod_lt _ (by decide)

theorem operand_large_uint (L : Lib) (b : Bytes) (hd : L.tags.Distinct)
    (h : 2 ^ 63 ≤ BytesToUint64 b) :
    Command.operand L L.tags.TypeUint (some b)
      = .ok (lit "uint(" ++ (lit "-" ++ decimal (2 ^ 64 - BytesToUint64 b)) ++ lit ")") := by
  simp only [TypeTags.Distinct, List.nodup_cons, List.mem_cons, List.mem_singleton,
    not_or, List.not_mem_nil, not_false_eq_true, List.nodup_nil, and_true] at hd
  obtain ⟨⟨h12, _, _, _⟩, _, _, _⟩ := hd
  simp only [Command.operand, Command.operandStr, if_neg (Ne.symm h12), if_true,
    toInt64_high _ h (BytesToUint64_lt b)]

theorem Reverse_eq_documentedForm (L : Lib) (c : Command) (k v : GoString)
    (hk : Command.operand L c.KeyType c.Key = .ok k)
    (hv : Command.operand L c.ValueType c.Value = .ok v)
    (hop : lowerStr c.Command ∈
      [lit "set", lit "mergeset", lit "get", lit "delete", lit "batch"]) :
    Command.Reverse L c = .ok (documentedForm c k v) := by
  have hup : ToUpper L c.Command = upperStr (lowerStr c.Command) := by
    apply ToUpper_of_lowerStr L _ _ rfl
    intro b hb
    simp only [List.mem_cons, List.mem_singleton, List.not_mem_nil, or_false] at hop
    rcases hop with h | h | h | h | h <;> rw [h] at hb <;> revert b <;> decide
  unfold Command.Reverse documentedForm
  rw [hk, hv]
  simp only [Outcome.bind, hup]
  simp only [List.mem_cons, List.mem_singleton, List.not_mem_nil, or_false] at hop
  have e1 : upperStr (lit "set") = lit "SET" := by decide
  have e2 : upperStr (lit "mergeset") = lit "MERGESET" := by decide
  have e3 : upperStr (lit "get") = lit "GET" := by decide
  have e4 : upperStr (lit "delete") = lit "DELETE" := by decide
  have e5 : upperStr (lit "batch") = lit "BATCH" := by decide
  rcases hop with h | h | h | h | h <;> rw [h]
  · rw [e1, if_pos (Or.inl rfl), if_pos (Or.inl rfl)]
    simp only [List.append_assoc]
  · rw [e2, if_pos (Or.inr rfl), if_pos (Or.inr rfl)]
    simp only [List.append_assoc]
  · rw [e3, if_neg (by decide), if_neg (by decide), if_pos (Or.inl rfl), if_neg (by decide),
      if_pos (Or.inl rfl)]
    simp only [List.append_assoc]
  · rw [e4, if_neg (by decide), if_neg (by decide), if_pos (Or.inr rfl), if_neg (by decide),
      if_pos (Or.inr rfl)]
    simp only [List.append_assoc]
  · rw [e5, if_neg (by decide), if_pos (Or.inl rfl), if_neg (by decide), if_neg (by decide)]
    simp only [List.append_assoc, List.nil_append]

theorem documentedLiteral_uint (L : Lib) (b : Bytes) (str : GoString) (hd : L.tags.Distinct)
    (h : DocumentedLiteral L L.tags.TypeUint (some b) str) :
    str = lit "uint(" ++ decimal (BytesToUint64 b) ++ lit ")" := by
  simp only [TypeTags.Distinct, List.nodup_cons, List.mem_cons, List.mem_singleton,
    not_or, List.not_mem_nil, not_false_eq_true, List.nodup_nil, and_true] at hd
  obtain ⟨⟨h12, _, _, _⟩, ⟨h23, h24, h25⟩, _, _⟩ := hd
  simp only [DocumentedLiteral] at h
  rcases h with ⟨h1, _⟩ | ⟨h1, _⟩ | ⟨_, h1⟩ | ⟨h1, _⟩ | ⟨h1, _⟩
  · exact absurd h1.symm h12
  · exact absurd h1 h25
  · exact h1
  · exact absurd h1 h23
  · exact absurd h1 h24

theorem minus_literal_ne_decimal (n m : Nat) (x y : GoString) :
    lit "-" ++ (decimal m ++ (lit ")" ++ x)) ≠ decimal n ++ (lit ")" ++ y) := by
  intro h
  have hminus : lit "-" = [(45 : Byte)] := by decide
  have hparen : lit ")" = [(41 : Byte)] := by decide
  rw [hminus, hparen] at h
  cases hdn : decimal n with
  | nil =>
    rw [hdn] at h
    simp at h
  | cons d rest =>
    rw [hdn] at h
    simp only [List.cons_append, List.nil_append, List.cons.injEq] at h
    exact decimal_ne_minus n d (by rw [hdn]; exact List.mem_cons_self _ _) h.1.symm

/-- C9: for a command whose operation, compared without regard to ASCII case, is one of set,
mergeset, get, delete or batch, and whose operands are nil or validly tagged, `Reverse`
returns exactly the documented form with the documented literals of its operands as long as
no uint operand is `2 ^ 63` or more; with a uint key of `2 ^ 63` or more that is printed (any
operation but batch), `Reverse` prints the key as `uint(` followed by a minus sign and the
digits of `2 ^ 64` minus the value, which is not the documented form. -/
theorem reverse_documented_unless_large_uint (L : Lib) (c : Command) (hd : L.tags.Distinct)
    (hk : ValidOperand L c.KeyType c.Key) (hv : ValidOperand L c.ValueType c.Value)
    (hop : lowerStr c.Command ∈
      [lit "set", lit "mergeset", lit "get", lit "delete", lit "batch"]) :
    (UintBelowSign L c.KeyType c.Key → UintBelowSign L c.ValueType c.Value →
      ∃ k v, DocumentedLiteral L c.KeyType c.Key k ∧
        DocumentedLiteral L c.ValueType c.Value v ∧
        Command.Reverse L c = .ok (documentedForm c k v)) ∧
    (∀ b, c.Key = some b → c.KeyType = L.tags.TypeUint → 2 ^ 63 ≤ BytesToUint64 b →
      lowerStr c.Command ≠ lit "batch" →
      (∃ v, Command.Reverse L c = .ok (documentedForm c
          (lit "uint(" ++ (lit "-" ++ decimal (2 ^ 64 - BytesToUint64 b)) ++ lit ")") v)) ∧
      ¬ ∃ k1 v1, DocumentedLiteral L c.KeyType c.Key k1 ∧
        DocumentedLiteral L c.ValueType c.Value v1 ∧
        Command.Reverse L c = .ok (documentedForm c k1 v1)) := by
  constructor
  · intro hks hvs
    obtain ⟨k, hk1, hk2⟩ := operand_documented L c.KeyType c.Key hd hk hks
    obtain ⟨v, hv1, hv2⟩ := operand_documented L c.ValueType c.Value hd hv hvs
    exact ⟨k, v, hk2, hv2, Reverse_eq_documentedForm L c k v hk1 hv1 hop⟩
  · intro b hkey hty hlarge hnb
    obtain ⟨v, hv1⟩ := operand_ok_of_valid L c.ValueType c.Value hv
    have hk1 : Command.operand L c.KeyType c.Key
        = .ok (lit "uint(" ++ (lit "-" ++ decimal (2 ^ 64 - BytesToUint64 b)) ++ lit ")") := by
      rw [hkey, hty]
      exact operand_large_uint L b hd hlarge
    have hrev := Reverse_eq_documentedForm L c _ v hk1 hv1 hop
    refine ⟨⟨v, hrev⟩, ?_⟩
    rintro ⟨k1, v1, hdk, _, hrev1⟩
    rw [hkey, hty] at hdk
    have hk1eq := documentedLiteral_uint L b k1 hd hdk
    rw [hrev] at hrev1
    simp only [Outcome.ok.injEq] at hrev1
    subst hk1eq
    simp only [List.mem_cons, List.mem_singleton, List.not_mem_nil, or_false] at hop
    unfold documentedForm at hrev1
    rcases hop with h | h | h | h | h
    · rw [h] at hrev1
      rw [if_pos (Or.inl rfl), if_pos (Or.inl rfl)] at hrev1
      simp only [List.append_assoc, List.append_cancel_left_eq] at hrev1
      exact minus_literal_ne_decimal _ _ _ _ hrev1
    · rw [h] at hrev1
      rw [if_pos (Or.inr rfl), if_pos (Or.inr rfl)] at hrev1
      simp only [List.append_assoc, List.append_cancel_left_eq] at hrev1
      exact minus_literal_ne_decimal _ _ _ _ hrev1
    · rw [h] at hrev1
      rw [if_neg (by decide), if_pos (Or.inl rfl), if_neg (by decide), if_pos (Or.inl rfl)]
        at hrev1
      simp only [List.append_assoc, List.append_cancel_left_eq] at hrev1
      exact minus_literal_ne_decimal _ _ _ _ hrev1
    · rw [h] at hrev1
      rw [if_neg (by decide), if_pos (Or.inr rfl), if_neg (by decide), if_pos (Or.inr rfl)]
        at hrev1
      simp only [List.append_assoc, List.append_cancel_left_eq] at hrev1
      exact minus_literal_ne_decimal _ _ _ _ hrev1
    · exact hnb h

theorem reverse_documented_unless_large_uint_witness :
    Command.Reverse sampleLib sampleSet
      = .ok (lit "USING idx.document.db SET uint(1) \x27\x7b\x7d\x27;") ∧
    Command.Reverse sampleLib sampleSetLarge
      = .ok (lit "USING idx.document.db SET uint(-9223372036854775808) \x27\x7b\x7d\x27;") ∧
    (∃ k v, DocumentedLiteral sampleLib sampleSet.KeyType sampleSet.Key k ∧
      DocumentedLiteral sampleLib sampleSet.ValueType sampleSet.Value v ∧
      Command.Reverse sampleLib sampleSet = .ok (documentedForm sampleSet k v)) ∧
    ((∃ v, Command.Reverse sampleLib sampleSetLarge = .ok (documentedForm sampleSetLarge
        (lit "uint(" ++ (lit "-" ++
          decimal (2 ^ 64 - BytesToUint64 (Uint64ToBytes (2 ^ 63)))) ++ lit ")") v)) ∧
      ¬ ∃ k1 v1, DocumentedLiteral sampleLib sampleSetLarge.KeyType sampleSetLarge.Key k1 ∧
        DocumentedLiteral sampleLib sampleSetLarge.ValueType sampleSetLarge.Value v1 ∧
        Command.Reverse sampleLib sampleSetLarge = .ok (documentedForm sampleSetLarge k1 v1)) :=
  ⟨by decide, by decide,
    (reverse_documented_unless_large_uint sampleLib sampleSet (by decide)
      (Or.inr (Or.inr ⟨Or.inl rfl, rfl⟩)) (Or.inl rfl) (by decide)).1
      (fun b hb _ => by cases hb; decide) (fun b hb ht => by cases hb; exact absurd ht (by decide)),
    (reverse_documented_unless_large_uint sampleLib sampleSetLarge (by decide)
      (Or.inr (Or.inr ⟨Or.inl rfl, rfl⟩)) (Or.inl rfl) (by decide)).2
      (Uint64ToBytes (2 ^ 63)) rfl rfl (by decide) (by decide)⟩

end NeoSearch
